import Mathlib

/-!
# Spidey HTTP server: request parsing, path resolution, dispatch and handlers

A shallow embedding of `request.c`, `utils.c`, `handler.c` and `forking.c`.

Conventions of the embedding:

* C strings are lists of characters (`Str`), a NULL pointer is `none`. The bytes
  a client sends may include NUL: the request parser sees each buffer filled by
  `fgets` as the C string it holds, its characters up to the first NUL (`cstr`).
* The client stream of a request is the pair `input` (bytes not read yet) and
  `output` (bytes the connection has accepted so far), with `room` the number
  of further bytes the connection accepts (`none`: every write succeeds).
* Everything the code obtains from the operating system (file system,
  configuration globals, constants of the C library) is a field of `World`.
* A function that can run into undefined behaviour (null dereference, reading
  past a terminator) returns an `Option`; `none` is that outcome.
-/

namespace Spidey

/-- C string contents. -/
abbrev Str := List Char

/-! ## C library -/

/-- The `isspace` classification of the C locale: space, and `\t \n \v \f \r`. -/
def isspace (c : Char) : Bool :=
  c.toNat == 32 || (9 ≤ c.toNat && c.toNat ≤ 13)

/-- The C string a buffer holds: its characters up to the first NUL. This is what
`strlen`, `strchr`, `strtok` and `strdup` see of the buffer. -/
def cstr (buffer : Str) : Str :=
  buffer.takeWhile (fun c => decide (c ≠ '\x00'))

/-- The characters of `s` from offset `b` up to (excluding) offset `e`. -/
def substr (s : Str) (b e : Nat) : Str :=
  (s.drop b).take (e - b)

/-- The C string found at offset `o` of buffer `s` once a terminator has been
stored at offset `e`. -/
def cstr_from (s : Str) (e o : Nat) : Str :=
  if o ≤ e then substr s o e else s.drop o

/-- Reading of one line by `fgets`: at most `n` characters, stopping after a newline.
Returns the characters read and the unread remainder. -/
def fgets_aux : Nat → Str → Str × Str
  | 0, s => ([], s)
  | _ + 1, [] => ([], [])
  | n + 1, c :: cs =>
    if c = '\n' then ([c], cs)
    else ((c :: (fgets_aux n cs).1), (fgets_aux n cs).2)

/-- The call `fgets(buffer, size, stream)`: `none` (NULL) at end of stream, else the
buffer contents and the rest of the stream. -/
def fgets (size : Nat) (stream : Str) : Option (Str × Str) :=
  if stream = [] then none else some (fgets_aux (size - 1) stream)

/-- The call `strchr(s, c)`: offset of the first `c` in `s`, `none` (NULL) when absent. -/
def strchr (s : Str) (c : Char) : Option Nat :=
  if c ∈ s then some (s.takeWhile (fun x => decide (x ≠ c))).length else none

/-- The call `strrchr(s, c)`: offset of the last `c` in `s`, `none` (NULL) when absent. -/
def strrchr (s : Str) (c : Char) : Option Nat :=
  if c ∈ s then some (s.length - 1 - (s.reverse.takeWhile (fun x => decide (x ≠ c))).length)
  else none

/-- The first call `strtok(s, delim)`: skips leading delimiters; `none` (NULL) when nothing
else is left, otherwise the offsets `(b, e)` of the token. The token is `substr s b e`;
the character at offset `e`, if any, is overwritten by a terminator and a following
`strtok(NULL, delim)` resumes at offset `e + 1`. -/
def strtok (delim : Str) (s : Str) : Option (Nat × Nat) :=
  let b := (s.takeWhile (fun c => decide (c ∈ delim))).length
  if b < s.length then
    some (b, b + ((s.drop b).takeWhile (fun c => decide (c ∉ delim))).length)
  else none

/-- The call `strcmp(a, b)`: the sign of the comparison of the first differing characters,
taken as unsigned; the end of a string is below every character. -/
def strcmp : Str → Str → Int
  | [], [] => 0
  | [], _ :: _ => -1
  | _ :: _, [] => 1
  | a :: as, b :: bs => if a = b then strcmp as bs else if a.toNat < b.toNat then -1 else 1

/-- The call `strncmp(a, b, n)`: as `strcmp`, on at most `n` characters. -/
def strncmp : Str → Str → Nat → Int
  | _, _, 0 => 0
  | [], [], _ + 1 => 0
  | [], _ :: _, _ + 1 => -1
  | _ :: _, [], _ + 1 => 1
  | a :: as, b :: bs, n + 1 =>
    if a = b then strncmp as bs n else if a.toNat < b.toNat then -1 else 1

/-! ## Declarations of `spidey.h` -/

/-- Modelled from the spec: the `Status` enumeration of `spidey.h`, which is not among the
sources: the four status values the server produces, and `other` for any further value of
the underlying integer type (the "unmapped status" of the spec). -/
inductive Status where
  | HTTP_STATUS_OK
  | HTTP_STATUS_BAD_REQUEST
  | HTTP_STATUS_NOT_FOUND
  | HTTP_STATUS_INTERNAL_SERVER_ERROR
  | other (code : Int)
  deriving DecidableEq

/-- Modelled from the spec: the `streq` string-equality helper of `spidey.h`, which is not
among the sources. -/
def streq (a b : Str) : Bool :=
  strcmp a b == 0

/-- Modelled from the spec: the `chomp` line-terminator trimming helper of `spidey.h`, which
is not among the sources: it removes the newline that ends the line. -/
def chomp (s : Str) : Str :=
  if s.getLast? = some '\n' then s.dropLast else s

/-- Modelled from the spec: the header entry of `spidey.h` (a name/value pair, linked through
`next`); the list of entries reached from `r->headers` is a Lean list, NULL being `[]`. -/
structure Header where
  name : Option Str
  data : Option Str
  deriving DecidableEq

/-- Modelled from the spec: the `Request` structure of `spidey.h`. The stream `r->stream` is
split into `input`, `output` and `room`. -/
structure Request where
  fd : Int
  input : Str
  output : Str
  room : Option Nat
  method : Option Str
  uri : Option Str
  path : Option Str
  query : Option Str
  host : Str
  port : Str
  headers : List Header
  deriving DecidableEq

/-- File type bits of `st_mode` as tested by `S_ISDIR` and `S_ISREG`. -/
inductive FileType where
  | directory
  | regular
  | special
  deriving DecidableEq

/-- Access modes passed to `access(2)`. -/
inductive AccessMode where
  | X_OK
  | R_OK
  deriving DecidableEq

/-- What the code reads from its surroundings: constants of the C library and of
`spidey.h`, the configuration globals, and the file system. -/
structure World where
  /-- the `BUFSIZ` constant of `stdio.h` -/
  BUFSIZ : Nat
  /-- ISO C: `BUFSIZ` is at least 256 -/
  BUFSIZ_min : 256 ≤ BUFSIZ
  /-- the `WHITESPACE` delimiter set of `spidey.h` -/
  WHITESPACE : Str
  /-- configured document root -/
  RootPath : Str
  /-- configured port -/
  Port : Str
  /-- configured default content type -/
  DefaultMimeType : Str
  /-- contents of the file named by `MimeTypesPath`; `none` when it cannot be opened -/
  MimeTypes : Option Str
  /-- contents of the output buffer of `realpath(3)` after the call -/
  realpath : Str → Str
  /-- the call `stat(2)`: file type, `none` when the call fails -/
  stat : Str → Option FileType
  /-- the call `access(2)`: `0` when access is granted -/
  access : Str → AccessMode → Int
  /-- entries of a directory as `scandir(3)` finds them, `none` when the scan fails -/
  scandir : Str → Option (List Str)
  /-- contents of a file opened with `fopen(path, "r")`, `none` when it cannot be opened -/
  fopen : Str → Option Str
  /-- process environment before the request is handled -/
  environ : List (Str × Str)
  /-- the call `popen(path, "r")` under an environment: the output of the command,
  `none` when the command cannot be spawned -/
  popen : Str → List (Str × Str) → Option Str

/-- Writing a string to `r->stream` (`fprintf`, `fputs`): the connection takes the
characters it still has room for. -/
def fputs (s : Str) (r : Request) : Request :=
  match r.room with
  | none => { r with output := r.output ++ s }
  | some k => { r with output := r.output ++ s.take k, room := some (k - s.length) }

/-- The call `fwrite(buf, 1, n, r->stream)`: returns the number of items written, a
`size_t`; a count short of `n` reports a failed write. -/
def fwrite (buf : Str) (r : Request) : Nat × Request :=
  (match r.room with
   | none => buf.length
   | some k => min buf.length k, fputs buf r)

/-! ## String helpers of utils.c -/

/-- `skip_whitespace` (utils.c 173-179). -/
def skip_whitespace (s : Str) : Str :=
  s.dropWhile isspace

/-- `skip_nonwhitespace` (utils.c 159-165); `none` when the string holds no whitespace and
the scan runs past its terminator. -/
def skip_nonwhitespace : Str → Option Str
  | [] => none
  | c :: cs => if isspace c then some (c :: cs) else skip_nonwhitespace cs

/-! ## request.c -/

/-- What the listening socket and the allocator deliver to one call of `accept_request`. -/
structure Peer where
  /-- `calloc` of the request structure succeeds -/
  alloc_request : Bool
  /-- `calloc` of the first header succeeds -/
  alloc_headers : Bool
  /-- result of `accept(2)` -/
  fd : Int
  /-- result of `getnameinfo(3)` -/
  nameinfo : Int
  host : Str
  port : Str
  /-- `fdopen` succeeds -/
  fdopen : Bool
  /-- bytes the client sends -/
  input : Str
  /-- bytes the client accepts -/
  room : Option Nat

/-- `accept_request` (request.c 30-79). Outer `none`: the request structure could not be
allocated and is dereferenced all the same. Inner `none`: the function returns NULL. -/
def accept_request (p : Peer) : Option (Option Request) :=
  if !p.alloc_request then none
  else
    let headers : List Header := if p.alloc_headers then [{ name := none, data := none }] else []
    if p.fd < 0 then some none
    else if p.nameinfo < 0 then some none
    else if !p.fdopen then some none
    else some (some
      { fd := p.fd, input := p.input, output := [], room := p.room,
        method := none, uri := none, path := none, query := none,
        host := p.host, port := p.port, headers := headers })

/-- `parse_request_method` (request.c 172-219). Returns the status (`-1` or `0`) and the
request after the call. `strtok`, `strchr` and `strdup` work on the C string the buffer
holds. -/
def parse_request_method (W : World) (r : Request) : Int × Request :=
  match fgets W.BUFSIZ r.input with
  | none => (-1, r)
  | some (raw, rest) =>
    let r := { r with input := rest }
    let buffer := cstr raw
    match strtok W.WHITESPACE buffer with
    | none => (-1, r)
    | some (mb, me) =>
      let method := substr buffer mb me
      let next := buffer.drop (me + 1)
      match strtok W.WHITESPACE next with
      | none => (-1, r)
      | some (ub, ue) =>
        let uri := substr next ub ue
        match strchr uri '?' with
        | some q =>
          (0, { r with method := some method, uri := some (uri.take q),
                       query := some (uri.drop (q + 1)) })
        | none =>
          (0, { r with method := some method, uri := some uri, query := some [] })

/-- Body of the loop of `parse_request_headers` (request.c 259-277) on the chomped buffer:
the header entry built from the C string in it, `none` when the body executes `return -1`.
`data` is read after `strtok` has stored its terminator in the buffer. -/
def parse_header_line (chomped : Str) : Option Header :=
  let buffer := cstr chomped
  match strchr buffer ':' with
  | none => none
  | some i =>
    let data := buffer.length - (skip_whitespace (buffer.drop (i + 1))).length
    match strtok [':'] buffer with
    | none => none
    | some (nb, ne) =>
      some { name := some (substr buffer nb ne), data := some (cstr_from buffer ne data) }

/-- The `while` loop of `parse_request_headers` (request.c 257-280), at most `fuel + 1`
iterations; `strlen` and `chomp` work on the C string the buffer holds.
`some (false, r)`: the body returned `-1`; `some (true, r)`: the loop ended;
`none`: fuel exhausted. -/
def parse_request_headers_loop (W : World) : Nat → Request → Option (Bool × Request)
  | fuel, r =>
    match fgets W.BUFSIZ r.input with
    | none => some (true, r)
    | some (buffer, rest) =>
      if (cstr buffer).length > 2 then
        match parse_header_line (chomp (cstr buffer)) with
        | none => some (false, { r with input := rest })
        | some curr =>
          match fuel with
          | 0 => none
          | fuel + 1 =>
            parse_request_headers_loop W fuel
              { r with input := rest, headers := curr :: r.headers }
      else some (true, { r with input := rest })

/-- `parse_request_headers` (request.c 248-291): the loop runs with as much fuel as there
are unread characters, which it cannot exhaust. -/
def parse_request_headers (W : World) (r : Request) : Option (Int × Request) :=
  match parse_request_headers_loop W r.input.length r with
  | none => none
  | some (false, r) => some (-1, r)
  | some (true, r) => if r.headers.isEmpty then some (-1, r) else some (0, r)

/-- `parse_request` (request.c 137-153). -/
def parse_request (W : World) (r : Request) : Option (Int × Request) :=
  match parse_request_method W r with
  | (rc, r) =>
    if rc ≠ 0 then some (-1, r)
    else
      match parse_request_headers W r with
      | none => none
      | some (rc, r) => if rc ≠ 0 then some (-1, r) else some (0, r)

/-! ## utils.c -/

/-- All tokens that `strtok(s, delim)` followed by repeated `strtok(NULL, delim)` returns:
the maximal runs of non-delimiters of `s`; `cur` is the run being read, reversed. -/
def strtok_all (delim : Str) : Str → Str → List Str
  | [], cur => if cur = [] then [] else [cur.reverse]
  | c :: cs, cur =>
    if c ∈ delim then
      (if cur = [] then strtok_all delim cs [] else cur.reverse :: strtok_all delim cs [])
    else strtok_all delim cs (c :: cur)

/-- One iteration of the scan of `determine_mimetype` (utils.c 61-83) on a line of the
mime-types file. `none`: undefined behaviour; `some none`: no match on this line;
`some (some m)`: the extension matches and `m` is the mimetype. -/
def determine_mimetype_line (W : World) (ext buffer : Str) : Option (Option Str) :=
  match skip_nonwhitespace buffer with
  | none => none
  | some t0 =>
    let token := buffer.length - (skip_whitespace t0).length
    match strtok W.WHITESPACE buffer with
    | none => some none
    | some (mb, me) =>
      let mimetype := substr buffer mb me
      if mimetype.head? = some '#' then some none
      else if (strtok_all W.WHITESPACE (cstr_from buffer me token) []).any (fun sub => streq ext sub)
      then some (some mimetype)
      else some none

/-- The `while` loop of `determine_mimetype` (utils.c 59-85) over the unread part of the
mime-types file. -/
def determine_mimetype_scan (W : World) (ext : Str) : Nat → Str → Option Str
  | fuel, fs =>
    match fgets W.BUFSIZ fs with
    | none => some W.DefaultMimeType
    | some (buffer, rest) =>
      match determine_mimetype_line W ext buffer with
      | none => none
      | some (some mimetype) => some mimetype
      | some none =>
        match fuel with
        | 0 => none
        | fuel + 1 => determine_mimetype_scan W ext fuel rest

/-- `determine_mimetype` (utils.c 34-89). When the mime-types file cannot be opened the
code goes on to read from the null stream: `none`. -/
def determine_mimetype (W : World) (path : Str) : Option Str :=
  match strrchr path '.' with
  | none => some W.DefaultMimeType
  | some i =>
    let ext := path.drop (i + 1)
    match W.MimeTypes with
    | none => none
    | some fs => determine_mimetype_scan W ext fs.length fs

/-- `determine_request_path` (utils.c 107-121); `none` is the NULL result. -/
def determine_request_path (W : World) (uri : Str) : Option Str :=
  let path := (W.RootPath ++ '/' :: uri).take (W.BUFSIZ - 1)
  let actual_path := W.realpath path
  if strncmp actual_path W.RootPath W.RootPath.length ≠ 0 then none
  else some actual_path

/-- `http_status_string` (utils.c 131-151). -/
def http_status_string (status : Status) : Str :=
  if status = Status.HTTP_STATUS_OK then "200 OK".toList
  else if status = Status.HTTP_STATUS_BAD_REQUEST then "400 Bad Request".toList
  else if status = Status.HTTP_STATUS_NOT_FOUND then "404 Not Found".toList
  else if status = Status.HTTP_STATUS_INTERNAL_SERVER_ERROR then
    "500 Internal Server Error".toList
  else "418 I\x27m A Teapot".toList

/-! ## handler.c -/

/-- The fixed HTML of the error page (handler.c 264). -/
def error_page_html : Str :=
  ("<link href=\"//maxcdn.bootstrapcdn.com/bootstrap/4.1.1/css/bootstrap.min.css\" " ++
   "rel=\"stylesheet\" id=\"bootstrap-css\"> " ++
   "<script src=\"//maxcdn.bootstrapcdn.com/bootstrap/4.1.1/js/bootstrap.min.js\"></script> " ++
   "<script src=\"//cdnjs.cloudflare.com/ajax/libs/jquery/3.2.1/jquery.min.js\"></script> " ++
   "<div class=\"d-flex justify-content-center align-items-center\" id=\"main\"> " ++
   "<h1 class=\"mr-3 pr-3 align-top border-right inline-block align-content-center\">404</h1> " ++
   "<div class=\"inline-block align-middle\"> " ++
   "<h2 class=\"font-weight-normal lead\" id=\"desc\">The page you requested was not found.</h2> " ++
   "</div> </div>").toList

/-- `handle_error` (handler.c 252-269). -/
def handle_error (r : Request) (status : Status) : Status × Request :=
  let status_string := http_status_string status
  let r := fputs ("HTTP/1.0 ".toList ++ status_string ++ "\r\n".toList) r
  let r := fputs "Content-Type: text/html\r\n".toList r
  let r := fputs "\r\n".toList r
  let r := fputs "<html><body>\n".toList r
  let r := fputs error_page_html r
  let r := fputs "</body></html>\n".toList r
  (status, r)

/-- The comparison `alphasort` given to `scandir`: `strcoll`, which in the C locale is
`strcmp`. -/
def alphasort (a b : Str) : Int :=
  strcmp a b

/-- The call `scandir(path, &entries, 0, alphasort)`: the entries of the directory sorted
with `alphasort`; `none` when the scan fails (`n < 0`). -/
def scandir (W : World) (path : Str) : Option (List Str) :=
  (W.scandir path).map (fun entries => entries.insertionSort (fun a b => alphasort a b ≤ 0))

/-- The fixed head of the listing page (handler.c 104), the bullet as its three bytes. -/
def browse_page_head : Str :=
  ("<!doctype html><html><head><meta charset=\"utf-8\">" ++
   "<meta name=\"viewport\" content=\"width=device-width, initial-scale=1, shrink-to-fit=no\">" ++
   "<link rel=\"stylesheet\" " ++
   "href=\"https://stackpath.bootstrapcdn.com/bootstrap/4.4.1/css/bootstrap.min.css\" " ++
   "integrity=\"sha384-Vkoo8x4CGsO3+Hhxv8T/Q5PaXtkKtu6ug5TOeNV6gBiFeWPGFN9MuhOf23Q9Ifjh\" " ++
   "crossorigin=\"anonymous\"><style>body \x7b background-color: rgb(128, 96, 0); \x7d " ++
   "a:link \x7b color: rgb(1, 0, 91); \x7d ul \x7b list-style: none; \x7d " ++
   "ul li::before \x7b content: \"\xe2\x80\xa2\"; color: rgb(1, 0, 91); font-weight: bold; " ++
   "display: inline-block; width: 1em; margin-left: -1em; \x7d " ++
   "a:visited \x7b color: rgb(1, 0, 91); \x7d </style></head><ul>\n").toList

/-- The link written for one directory entry (handler.c 113-115). -/
def browse_link (uri d_name : Str) : Str :=
  "<a href=\"".toList ++ (if streq uri "/".toList then [] else uri) ++ "/".toList ++ d_name ++
    "\">".toList ++ d_name ++ "</a>".toList

/-- Body of the entry loop of `handle_browse_request` (handler.c 110-118). -/
def browse_entry (uri : Str) (r : Request) (d_name : Str) : Request :=
  if !streq d_name ".".toList then
    fputs "</li>\n".toList (fputs (browse_link uri d_name) (fputs "<li>".toList r))
  else r

/-- `handle_browse_request` (handler.c 86-127); `none` when `r->path` or `r->uri` is NULL. -/
def handle_browse_request (W : World) (r : Request) : Option (Status × Request) :=
  match r.path, r.uri with
  | some path, some uri =>
    match scandir W path with
    | none => some (handle_error r Status.HTTP_STATUS_NOT_FOUND)
    | some entries =>
      let r := fputs "HTTP/1.0 200 OK\r\n".toList r
      let r := fputs "Content-Type: text/html\r\n".toList r
      let r := fputs "\r\n".toList r
      let r := fputs browse_page_head r
      let r := fputs "<ul>\n".toList r
      let r := entries.foldl (browse_entry uri) r
      let r := fputs "</ul>\n".toList r
      let r := (List.range 50).foldl (fun r _ => fputs "<br>".toList r) r
      some (Status.HTTP_STATUS_OK, r)
  | _, _ => none

/-- The copy loop of `handle_file_request` (handler.c 165-169) over the unread part `fs` of
the file. `some (true, r)`: end of file reached; `some (false, r)`: `goto fail` taken;
`none`: fuel exhausted. The value of `fwrite` is an unsigned count. -/
def handle_file_request_copy (W : World) : Nat → Str → Request → Option (Bool × Request)
  | fuel, fs, r =>
    let buffer := fs.take W.BUFSIZ
    let nread := buffer.length
    if nread > 0 then
      if (fwrite buffer r).1 < 0 then some (false, (fwrite buffer r).2)
      else
        match fuel with
        | 0 => none
        | fuel + 1 => handle_file_request_copy W fuel (fs.drop W.BUFSIZ) (fwrite buffer r).2
    else some (true, r)

/-- `handle_file_request` (handler.c 140-181); `none` when `r->path` is NULL or the
mimetype lookup runs into undefined behaviour. -/
def handle_file_request (W : World) (r : Request) : Option (Status × Request) :=
  match r.path with
  | none => none
  | some path =>
    match W.fopen path with
    | none => some (handle_error r Status.HTTP_STATUS_NOT_FOUND)
    | some fs =>
      match determine_mimetype W path with
      | none => none
      | some mimetype =>
        let r := fputs "HTTP/1.0 200 OK\r\n".toList r
        let r := fputs ("Content-Type: ".toList ++ mimetype ++ "\r\n".toList) r
        let r := fputs "\r\n".toList r
        match handle_file_request_copy W fs.length fs r with
        | none => none
        | some (true, r) => some (Status.HTTP_STATUS_OK, r)
        | some (false, r) => some (Status.HTTP_STATUS_INTERNAL_SERVER_ERROR, r)

/-- The call `setenv(name, value, 1)` on the process environment. -/
def setenv (name value : Str) (env : List (Str × Str)) : List (Str × Str) :=
  (name, value) :: env.filter (fun kv => decide (kv.1 ≠ name))

/-- One line of the export loop (handler.c 217-222):
`if (streq(h->name, key)) setenv(var, h->data, 1)`; `none` when `h->data` is NULL there. -/
def export_header (name : Str) (data : Option Str) (key var : String)
    (env : List (Str × Str)) : Option (List (Str × Str)) :=
  if streq name key.toList then data.map (fun d => setenv var.toList d env)
  else some env

/-- The export loop of `handle_cgi_request` (handler.c 214-224) from entry `h` on;
`none` when the loop dereferences a null entry. -/
def export_headers : List Header → List (Str × Str) → Option (List (Str × Str))
  | [], _ => none
  | h :: next, env =>
    match h.name with
    | none => some env
    | some name =>
      (export_header name h.data "Host" "HTTP_HOST" env).bind fun env =>
      (export_header name h.data "Accept" "HTTP_ACCEPT" env).bind fun env =>
      (export_header name h.data "Accept-Language" "HTTP_ACCEPT_LANGUAGE" env).bind fun env =>
      (export_header name h.data "Accept-Encoding" "HTTP_ACCEPT_ENCODING" env).bind fun env =>
      (export_header name h.data "Connection" "HTTP_CONNECTION" env).bind fun env =>
      (export_header name h.data "User-Agent" "HTTP_USER_AGENT" env).bind fun env =>
      export_headers next env

/-- The environment `handle_cgi_request` has built when it calls `popen`
(handler.c 203-224); `none` on a null string or entry. -/
def cgi_environment (W : World) (r : Request) : Option (List (Str × Str)) :=
  match r.query, r.method, r.uri, r.path with
  | some query, some method, some uri, some path =>
    let env := setenv "QUERY_STRING".toList query W.environ
    let env := setenv "REMOTE_ADDR".toList r.host env
    let env := setenv "REMOTE_PORT".toList r.port env
    let env := setenv "REQUEST_METHOD".toList method env
    let env := setenv "REQUEST_URI".toList uri env
    let env := setenv "SCRIPT_FILENAME".toList path env
    let env := setenv "DOCUMENT_ROOT".toList W.RootPath env
    let env := setenv "SERVER_PORT".toList W.Port env
    export_headers r.headers env
  | _, _, _, _ => none

/-- The relay loop of `handle_cgi_request` (handler.c 234-236) over the unread output `pfs`
of the command: each buffer is written up to its first NUL. -/
def handle_cgi_request_relay (W : World) : Nat → Str → Request → Option Request
  | fuel, pfs, r =>
    match fgets W.BUFSIZ pfs with
    | none => some r
    | some (buffer, rest) =>
      match fuel with
      | 0 => none
      | fuel + 1 =>
        handle_cgi_request_relay W fuel rest
          (fputs (buffer.takeWhile (fun c => decide (c ≠ '\x00'))) r)

/-- `handle_cgi_request` (handler.c 195-241); when `popen` fails the code calls `pclose`
on the null stream: `none`. -/
def handle_cgi_request (W : World) (r : Request) : Option (Status × Request) :=
  match cgi_environment W r, r.path with
  | some env, some path =>
    match W.popen path env with
    | none => none
    | some pfs =>
      (handle_cgi_request_relay W pfs.length pfs r).map
        (fun r => (Status.HTTP_STATUS_OK, r))
  | _, _ => none

/-- A handler's status stored in the local variable `result` of `handle_request`. -/
def assigned (sr : Status × Request) : Option Status × Request :=
  (some sr.1, sr.2)

/-- `handle_request` (handler.c 30-73). The first component of the result is the returned
value of the local `result`: `none` when no branch assigned it. Outer `none`: a handler ran
into undefined behaviour. -/
def handle_request (W : World) (r : Request) : Option (Option Status × Request) :=
  match parse_request W r with
  | none => none
  | some (rc, r) =>
    if rc = -1 then some (assigned (handle_error r Status.HTTP_STATUS_BAD_REQUEST))
    else
      match r.uri with
      | none => none
      | some uri =>
        let r := { r with path := determine_request_path W uri }
        match r.path with
        | none => some (assigned (handle_error r Status.HTTP_STATUS_NOT_FOUND))
        | some path =>
          let result : Option Status := none
          match W.stat path with
          | none => some (assigned (handle_error r Status.HTTP_STATUS_NOT_FOUND))
          | some st_mode =>
            if st_mode = FileType.directory then
              (handle_browse_request W r).map assigned
            else if st_mode = FileType.regular then
              if W.access path AccessMode.X_OK = 0 then
                (handle_cgi_request W r).map assigned
              else if W.access path AccessMode.R_OK = 0 then
                (handle_file_request W r).map assigned
              else some (result, r)
            else some (assigned (handle_error r Status.HTTP_STATUS_BAD_REQUEST))

/-! ## The CGI environment, entry by entry -/

/-- The call `getenv(name)` on the process environment. -/
def getenv (env : List (Str × Str)) (name : Str) : Option Str :=
  (env.find? (fun kv => decide (kv.1 = name))).map (fun kv => kv.2)

/-- The six lines of the body of the export loop (handler.c 217-222) for one entry with
name `name`; `export_headers` runs them on each entry in turn. -/
def export_entry (name : Str) (data : Option Str) (env : List (Str × Str)) :
    Option (List (Str × Str)) :=
  (export_header name data "Host" "HTTP_HOST" env).bind fun env =>
  (export_header name data "Accept" "HTTP_ACCEPT" env).bind fun env =>
  (export_header name data "Accept-Language" "HTTP_ACCEPT_LANGUAGE" env).bind fun env =>
  (export_header name data "Accept-Encoding" "HTTP_ACCEPT_ENCODING" env).bind fun env =>
  (export_header name data "Connection" "HTTP_CONNECTION" env).bind fun env =>
  export_header name data "User-Agent" "HTTP_USER_AGENT" env

/-- The header names the export loop tests, each with the variable it sets
(handler.c 217-222). -/
def cgi_header_variables : List (Str × Str) :=
  [("Host".toList, "HTTP_HOST".toList),
   ("Accept".toList, "HTTP_ACCEPT".toList),
   ("Accept-Language".toList, "HTTP_ACCEPT_LANGUAGE".toList),
   ("Accept-Encoding".toList, "HTTP_ACCEPT_ENCODING".toList),
   ("Connection".toList, "HTTP_CONNECTION".toList),
   ("User-Agent".toList, "HTTP_USER_AGENT".toList)]

/-- The variable exported for a header name, `none` for a name that is not listed. -/
def exported_variable (name : Str) : Option Str :=
  (cgi_header_variables.find? (fun kv => decide (kv.1 = name))).map (fun kv => kv.2)

/-- The effect on the environment of visiting one header entry, given as the pair of its
name and its value. -/
def export_step (env : List (Str × Str)) (nd : Str × Str) : List (Str × Str) :=
  match exported_variable nd.1 with
  | none => env
  | some var => setenv var nd.2 env

/-- The list entry `parse_request_headers` allocates for a name and a value. -/
def header_entry (nd : Str × Str) : Header :=
  { name := some nd.1, data := some nd.2 }

/-- The header lines of a stream as `parse_request_headers` reads them: the C strings of
the successive buffers of `fgets` that are longer than two characters, chomped, up to the
first shorter one or the end of the stream. -/
def header_lines (W : World) : Nat → Str → List Str
  | fuel, input =>
    match fgets W.BUFSIZ input with
    | none => []
    | some (buffer, rest) =>
      if (cstr buffer).length > 2 then
        chomp (cstr buffer) ::
          (match fuel with
           | 0 => []
           | fuel + 1 => header_lines W fuel rest)
      else []

/-! ## forking.c -/

/-- What `free_request` releases. -/
structure Released where
  /-- descriptor of the stream closed with `fclose` -/
  stream : Int
  /-- the strings `method`, `uri`, `path`, `query` passed to `free` -/
  strings : List (Option Str)
  /-- the header entries freed by the loop, in list order -/
  headers : List Header
  deriving DecidableEq

/-- `free_request` (request.c 93-126) on a request whose stream is open, as every request
returned by `accept_request` is. -/
def free_request (r : Request) : Released :=
  { stream := r.fd, strings := [r.method, r.uri, r.path, r.query], headers := r.headers }

/-- What one process executing `forking_server` does, as seen from outside. -/
inductive Event where
  /-- `accept_request(sfd)` returned this request (`none`: NULL) -/
  | accept_request (r : Option Request)
  /-- `signal(SIGINT, SIG_IGN)` -/
  | signal
  /-- `fork()` returned `pid` in this process -/
  | fork (pid : Int)
  /-- `close(sfd)` -/
  | close (sfd : Int)
  /-- `handle_request(r)` returned, with its status and the request as it left it -/
  | handle_request (r : Request) (ret : Option Status × Request)
  /-- `free_request(r)` returned -/
  | free_request (released : Released)
  /-- `exit(status)` -/
  | exit (status : Int)
  deriving DecidableEq

/-- How the observation of a process ends. -/
inductive Outcome where
  /-- the process called `exit` with this status -/
  | exited (status : Int)
  /-- the process ran into undefined behaviour -/
  | undefined
  /-- the process is in `accept_request` at the top of the loop, waiting -/
  | accepting
  deriving DecidableEq

/-- The value of `EXIT_SUCCESS`. -/
def EXIT_SUCCESS : Int := 0

/-- The value of `EXIT_FAILURE`. -/
def EXIT_FAILURE : Int := 1

/-- `forking_server` (forking.c 20-61) as one process runs it. Each element of `arrivals`
is one turn of the `while (true)` loop in this process: what `accept_request` is given and
the value `fork` returns here (0 in the worker, the worker's pid or a negative value in
the acceptor). The result is what the process did and how its observation ends. -/
def forking_server (W : World) (sfd : Int) : List (Peer × Int) → List Event × Outcome
  | [] => ([], Outcome.accepting)
  | (p, pid) :: arrivals =>
    match accept_request p with
    | none => ([], Outcome.undefined)
    | some none =>
      (Event.accept_request none :: Event.signal :: (forking_server W sfd arrivals).1,
        (forking_server W sfd arrivals).2)
    | some (some r) =>
      if pid < 0 then
        ([Event.accept_request (some r), Event.signal, Event.fork pid,
          Event.free_request (free_request r), Event.exit EXIT_FAILURE],
         Outcome.exited EXIT_FAILURE)
      else if pid = 0 then
        match handle_request W r with
        | none =>
          ([Event.accept_request (some r), Event.signal, Event.fork pid, Event.close sfd],
           Outcome.undefined)
        | some ret =>
          ([Event.accept_request (some r), Event.signal, Event.fork pid, Event.close sfd,
            Event.handle_request r ret, Event.free_request (free_request ret.2),
            Event.exit EXIT_SUCCESS],
           Outcome.exited EXIT_SUCCESS)
      else
        (Event.accept_request (some r) :: Event.signal :: Event.fork pid ::
          Event.free_request (free_request r) :: (forking_server W sfd arrivals).1,
         (forking_server W sfd arrivals).2)

/-! ## A concrete world and concrete requests, used to evaluate the code -/

/-- Components of a path between slashes; `cur` is the component being read, reversed. -/
def path_components : Str → Str → List Str
  | [], cur => [cur.reverse]
  | c :: cs, cur =>
    if c = '/' then cur.reverse :: path_components cs [] else path_components cs (c :: cur)

/-- One step of lexical canonicalisation: empty and `.` components vanish, `..` removes
the component before it. -/
def canonical_step (stack : List Str) (comp : Str) : List Str :=
  if comp = [] ∨ comp = ".".toList then stack
  else if comp = "..".toList then stack.dropLast
  else stack ++ [comp]

/-- What `realpath(3)` computes on a file system without symbolic links in which every
named component exists. -/
def lexical_realpath (p : Str) : Str :=
  let comps := (path_components p []).foldl canonical_step []
  if comps = [] then "/".toList else comps.foldr (fun c acc => '/' :: c ++ acc) []

/-- File types of the example file system. -/
def example_stat (p : Str) : Option FileType :=
  if p = "/var/www".toList ∨ p = "/var/www/docs".toList then some FileType.directory
  else if p = "/var/www/index.html".toList ∨ p = "/var/www/secret.txt".toList
    ∨ p = "/var/www/cgi.sh".toList ∨ p = "/var/www-secret/x".toList then some FileType.regular
  else if p = "/var/www/fifo".toList then some FileType.special
  else none

/-- Permissions of the example file system: `cgi.sh` may be executed and read,
`index.html` and `/var/www-secret/x` may be read, `secret.txt` has mode 000. -/
def example_access (p : Str) (m : AccessMode) : Int :=
  if p = "/var/www/cgi.sh".toList then 0
  else if (p = "/var/www/index.html".toList ∨ p = "/var/www-secret/x".toList)
    ∧ m = AccessMode.R_OK then 0
  else -1

/-- An example world: document root `/var/www` on the example file system. -/
def example_world : World :=
  { BUFSIZ := 8192
    BUFSIZ_min := by decide
    WHITESPACE := " \t\n".toList
    RootPath := "/var/www".toList
    Port := "9898".toList
    DefaultMimeType := "text/plain".toList
    MimeTypes := some "# types\ntext/html\t\thtml htm\nimage/png\tpng\n".toList
    realpath := lexical_realpath
    stat := example_stat
    access := example_access
    scandir := fun p =>
      if p = "/var/www/docs".toList then
        some ["a.txt".toList, "b.txt".toList, ".".toList, "..".toList, ".hidden".toList]
      else none
    fopen := fun p =>
      if p = "/var/www/index.html".toList then some "<h1>hi</h1>\n".toList
      else if p = "/var/www-secret/x".toList then some "top secret\n".toList
      else none
    environ := []
    popen := fun p _ => if p = "/var/www/cgi.sh".toList then some "hello\n".toList else none }

/-- The request `accept_request` returns for a client that sends `input`. -/
def example_request (input : String) : Request :=
  { fd := 4, input := input.toList, output := [], room := none,
    method := none, uri := none, path := none, query := none,
    host := "127.0.0.1".toList, port := "51000".toList,
    headers := [{ name := none, data := none }] }

/-- The request a client's bytes parse to in the example world (the unparsed request when
parsing does not return). -/
def example_parsed (input : String) : Request :=
  match parse_request example_world (example_request input) with
  | some (_, r) => r
  | none => example_request input

/-- The path `p` names the directory `root` itself or something below it. -/
def within_root (root p : Str) : Bool :=
  p == root || (root ++ ['/']).isPrefixOf p

/-- What `accept_request` is given for a client that sends `input`: every allocation and
system call succeeds. -/
def example_peer (input : String) : Peer :=
  { alloc_request := true, alloc_headers := true, fd := 4, nameinfo := 0,
    host := "127.0.0.1".toList, port := "51000".toList, fdopen := true,
    input := input.toList, room := none }

/-- The example world with the smallest read buffer ISO C allows. -/
def small_buffer_world : World :=
  { example_world with BUFSIZ := 256, BUFSIZ_min := by decide }

/-- The bytes of a block of lines, each ended by a newline. -/
def header_block : List Str → Str
  | [] => []
  | l :: ls => l ++ '\n' :: header_block ls

/-- A header line that the loop of `parse_request_headers` turns into an entry: no newline
and no NUL inside, not blank (more than one character), with a `:` and with a character
other than `:`, and fitting the read buffer together with its newline. -/
def header_line_ok (W : World) (l : Str) : Prop :=
  '\n' ∉ l ∧ '\x00' ∉ l ∧ 1 < l.length ∧ ':' ∈ l ∧ (∃ c ∈ l, c ≠ ':')
    ∧ l.length + 1 < W.BUFSIZ

/-- What `handle_request` returns in the example world for a client's bytes (the unhandled
request with an unset status when it does not return). -/
def example_handled (input : String) : Option Status × Request :=
  match handle_request example_world (example_request input) with
  | some ret => ret
  | none => (none, example_request input)

/-- Two turns of the accept loop in one process: in the first `fork` returns the pid of a
worker, in the second it returns 0, so this process is the worker of the second client. -/
def example_arrivals : List (Peer × Int) :=
  [(example_peer "GET /docs HTTP/1.0\nHost: h\n\n", 4711),
   (example_peer "GET /index.html HTTP/1.0\nHost: h\n\n", 0)]

/-! # Theorems -/

set_option maxHeartbeats 1000000
set_option maxRecDepth 100000

/-! ## Dispatch on a regular file without permissions -/

/-- C1: evaluation of `handle_request` on a regular file that may be neither executed nor
read (`/var/www/secret.txt`, mode 000): the returned status is the never-assigned local
`result` and no response is written, where the claim asks for status 400 and the 400 page. -/
theorem handle_request_no_permission_unset :
    example_world.stat "/var/www/secret.txt".toList = some FileType.regular ∧
    example_world.access "/var/www/secret.txt".toList AccessMode.X_OK ≠ 0 ∧
    example_world.access "/var/www/secret.txt".toList AccessMode.R_OK ≠ 0 ∧
    (handle_request example_world
        (example_request "GET /secret.txt HTTP/1.0\r\nHost: localhost\r\n\r\n")).map
      (fun res => (res.1, res.2.path, res.2.output))
      = some (none, some "/var/www/secret.txt".toList, []) := by
  decide

/-! ## Facts about the C library model -/

theorem fgets_aux_line (l rest : Str) (hnl : '\n' ∉ l) :
    ∀ n, l.length < n → fgets_aux n (l ++ '\n' :: rest) = (l ++ ['\n'], rest) := by
  induction l with
  | nil =>
    intro n hn
    obtain ⟨m, rfl⟩ : ∃ m, n = m + 1 := ⟨n - 1, by simp at hn; omega⟩
    simp [fgets_aux]
  | cons c cs ih =>
    intro n hn
    obtain ⟨m, rfl⟩ : ∃ m, n = m + 1 := ⟨n - 1, by simp at hn; omega⟩
    have hc : c ≠ '\n' := fun h => hnl (by simp [h])
    have hcs : '\n' ∉ cs := fun h => hnl (by simp [h])
    have hm : cs.length < m := by simp at hn; omega
    simp [fgets_aux, hc, ih hcs m hm]

theorem fgets_line (size : Nat) (l rest : Str) (hnl : '\n' ∉ l) (hfit : l.length + 1 < size) :
    fgets size (l ++ '\n' :: rest) = some (l ++ ['\n'], rest) := by
  have h : l ++ '\n' :: rest ≠ [] := by simp
  simp only [fgets, h, if_false]
  rw [fgets_aux_line l rest hnl (size - 1) (by omega)]

theorem fgets_aux_append : ∀ (n : Nat) (s : Str), (fgets_aux n s).1 ++ (fgets_aux n s).2 = s := by
  intro n
  induction n with
  | zero => intro s; simp [fgets_aux]
  | succ n ih =>
    intro s
    cases s with
    | nil => simp [fgets_aux]
    | cons c cs =>
      by_cases hc : c = '\n'
      · simp [fgets_aux, hc]
      · simp [fgets_aux, hc, ih cs]

theorem fgets_length (size : Nat) (s buffer rest : Str) (h : fgets size s = some (buffer, rest)) :
    buffer.length + rest.length = s.length := by
  unfold fgets at h
  split at h
  · exact absurd h (by simp)
  · have h2 := fgets_aux_append (size - 1) s
    simp only [Option.some.injEq] at h
    rw [h] at h2
    simp only at h2
    rw [← h2, List.length_append]

theorem chomp_line (l : Str) : chomp (l ++ ['\n']) = l := by
  simp [chomp]

theorem chomp_of_no_newline (l : Str) (hnl : '\n' ∉ l) : chomp l = l := by
  unfold chomp
  split
  · rename_i h
    exact absurd (List.mem_of_mem_getLast? h) hnl
  · rfl

/-- A token standing between leading delimiters and a delimiter (or the end). -/
theorem strtok_token (delim pre tok post : Str)
    (hpre : ∀ c ∈ pre, c ∈ delim) (htok : tok ≠ []) (htokd : ∀ c ∈ tok, c ∉ delim)
    (hpost : ∀ c, post.head? = some c → c ∈ delim) :
    strtok delim (pre ++ tok ++ post) = some (pre.length, pre.length + tok.length) := by
  obtain ⟨t, ts, rfl⟩ : ∃ t ts, tok = t :: ts := by
    cases tok with
    | nil => exact absurd rfl htok
    | cons t ts => exact ⟨t, ts, rfl⟩
  have ht : t ∉ delim := htokd t (by simp)
  have h1 : (pre ++ (t :: ts) ++ post).takeWhile (fun c => decide (c ∈ delim)) = pre := by
    rw [List.append_assoc, List.takeWhile_append_of_pos (by simpa using hpre)]
    simp [List.takeWhile_cons, ht]
  have h2 : ((t :: ts) ++ post).takeWhile (fun c => decide (c ∉ delim)) = t :: ts := by
    rw [List.takeWhile_append_of_pos (by simpa using htokd)]
    cases post with
    | nil => simp
    | cons p ps =>
      have hp : p ∈ delim := hpost p rfl
      simp [List.takeWhile_cons, hp]
  unfold strtok
  simp only [h1]
  have hlen : pre.length < (pre ++ (t :: ts) ++ post).length := by simp
  rw [if_pos hlen]
  have h3 : (pre ++ (t :: ts) ++ post).drop pre.length = (t :: ts) ++ post := by
    rw [List.append_assoc, List.drop_left]
  rw [h3, h2]

theorem substr_middle (pre tok post : Str) :
    substr (pre ++ tok ++ post) pre.length (pre.length + tok.length) = tok := by
  unfold substr
  rw [List.append_assoc, List.drop_left]
  simp

theorem strtok_none_of_all (delim s : Str) (h : ∀ c ∈ s, c ∈ delim) : strtok delim s = none := by
  have h1 : s.takeWhile (fun c => decide (c ∈ delim)) = s :=
    List.takeWhile_eq_self_iff.mpr (by simpa using h)
  unfold strtok
  simp [h1]

theorem strncmp_eq_zero_iff (b : Str) : ∀ a : Str, strncmp a b b.length = 0 ↔ b <+: a := by
  induction b with
  | nil => intro a; simp [strncmp]
  | cons y ys ih =>
    intro a
    cases a with
    | nil => simp [strncmp]
    | cons x xs =>
      by_cases hxy : x = y
      · subst hxy
        simp [strncmp, ih xs, List.cons_prefix_cons]
      · have hyx : ¬ y = x := fun h => hxy h.symm
        by_cases hlt : x.toNat < y.toNat
        · simp [strncmp, hxy, hyx, hlt, List.cons_prefix_cons]
        · simp [strncmp, hxy, hyx, hlt, List.cons_prefix_cons]

theorem determine_request_path_eq (W : World) (uri : Str) :
    determine_request_path W uri =
      if W.RootPath <+: W.realpath ((W.RootPath ++ '/' :: uri).take (W.BUFSIZ - 1))
      then some (W.realpath ((W.RootPath ++ '/' :: uri).take (W.BUFSIZ - 1))) else none := by
  unfold determine_request_path
  simp only [ne_eq, strncmp_eq_zero_iff]
  split <;> rename_i h
  · simp [h]
  · simp only [not_not] at h
    simp [h]

/-! ## Path resolution -/

/-- C2, as stated, fails: with document root `/var/www` the URI `/../www-secret/x` resolves to
`/var/www-secret/x`, which is neither the root nor below it, yet `determine_request_path`
returns that path and `handle_request` serves the file with status 200. -/
theorem determine_request_path_sibling_escape :
    within_root example_world.RootPath
        (example_world.realpath "/var/www//../www-secret/x".toList) = false ∧
    determine_request_path example_world "/../www-secret/x".toList
      = some "/var/www-secret/x".toList ∧
    (handle_request example_world
        (example_request "GET /../www-secret/x HTTP/1.0\r\nHost: localhost\r\n\r\n")).map
      (fun res => (res.1, res.2.output))
      = some (some Status.HTTP_STATUS_OK,
          "HTTP/1.0 200 OK\r\nContent-Type: text/plain\r\n\r\ntop secret\n".toList) := by
  decide

/-- C2, amended: when the document root string is not a prefix of the canonicalized path of
root + "/" + uri, `determine_request_path` returns no path and `handle_request` answers a
request that parsed to this URI with the 404 error response: the status and the bytes it
writes are those `handle_error` writes for a path that was resolved but is missing. -/
theorem handle_request_outside_root (W : World) (r r1 : Request) (uri : Str)
    (hparse : parse_request W r = some (0, r1)) (huri : r1.uri = some uri)
    (hout : ¬ W.RootPath <+: W.realpath ((W.RootPath ++ '/' :: uri).take (W.BUFSIZ - 1))) :
    determine_request_path W uri = none ∧
    handle_request W r
      = some (assigned (handle_error { r1 with path := none } Status.HTTP_STATUS_NOT_FOUND)) ∧
    ∀ p : Str,
      (handle_error { r1 with path := some p } Status.HTTP_STATUS_NOT_FOUND).1
        = (handle_error { r1 with path := none } Status.HTTP_STATUS_NOT_FOUND).1 ∧
      (handle_error { r1 with path := some p } Status.HTTP_STATUS_NOT_FOUND).2.output
        = (handle_error { r1 with path := none } Status.HTTP_STATUS_NOT_FOUND).2.output := by
  have hnone : determine_request_path W uri = none := by
    rw [determine_request_path_eq, if_neg hout]
  refine ⟨hnone, ?_, ?_⟩
  · unfold handle_request
    simp [hparse, huri, hnone]
  · intro p
    cases hroom : r1.room <;> simp [handle_error, fputs, hroom]

/-- Witness for C2 amended: `/../../etc/passwd` under document root `/var/www`. -/
theorem handle_request_outside_root_witness :
    parse_request example_world
        (example_request "GET /../../etc/passwd HTTP/1.0\r\nHost: localhost\r\n\r\n")
      = some (0, example_parsed "GET /../../etc/passwd HTTP/1.0\r\nHost: localhost\r\n\r\n") ∧
    determine_request_path example_world "/../../etc/passwd".toList = none ∧
    handle_request example_world
        (example_request "GET /../../etc/passwd HTTP/1.0\r\nHost: localhost\r\n\r\n")
      = some (assigned (handle_error
          { example_parsed "GET /../../etc/passwd HTTP/1.0\r\nHost: localhost\r\n\r\n" with
            path := none } Status.HTTP_STATUS_NOT_FOUND)) :=
  have h := handle_request_outside_root example_world
    (example_request "GET /../../etc/passwd HTTP/1.0\r\nHost: localhost\r\n\r\n")
    (example_parsed "GET /../../etc/passwd HTTP/1.0\r\nHost: localhost\r\n\r\n")
    "/../../etc/passwd".toList (by decide) (by decide) (by decide)
  ⟨by decide, h.1, h.2.1⟩

/-! ## Request parsing -/

/-- C3: evaluation of the parser on requests from `accept_request` whose header block has
no header line, once with a blank line and once with the end of the stream right after the
request line: `parse_request_headers` returns 0, not -1, because `r->headers` already holds
the entry `accept_request` allocated; `parse_request` returns 0 as well. -/
theorem parse_request_headers_zero_lines_succeeds :
    accept_request (example_peer "GET / HTTP/1.0\r\n\r\n")
      = some (some (example_request "GET / HTTP/1.0\r\n\r\n")) ∧
    (parse_request_headers example_world
        (parse_request_method example_world (example_request "GET / HTTP/1.0\r\n\r\n")).2).map
      (fun res => (res.1, res.2.headers)) = some (0, [{ name := none, data := none }]) ∧
    (parse_request example_world (example_request "GET / HTTP/1.0\r\n\r\n")).map
      (fun res => res.1) = some 0 ∧
    accept_request (example_peer "GET / HTTP/1.0\r\n")
      = some (some (example_request "GET / HTTP/1.0\r\n")) ∧
    (parse_request_headers example_world
        (parse_request_method example_world (example_request "GET / HTTP/1.0\r\n")).2).map
      (fun res => (res.1, res.2.headers)) = some (0, [{ name := none, data := none }]) ∧
    (parse_request example_world (example_request "GET / HTTP/1.0\r\n")).map
      (fun res => res.1) = some 0 := by
  decide

theorem exists_first_split (c : Char) : ∀ s : Str, c ∈ s → ∃ u v, s = u ++ c :: v ∧ c ∉ u := by
  intro s
  induction s with
  | nil => intro h; simp at h
  | cons x xs ih =>
    intro h
    by_cases hx : x = c
    · exact ⟨[], xs, by simp [hx], by simp⟩
    · have hxs : c ∈ xs := by
        rcases List.mem_cons.mp h with h1 | h1
        · exact absurd h1.symm hx
        · exact h1
      obtain ⟨u, v, huv, hu⟩ := ih hxs
      refine ⟨x :: u, v, by simp [huv], ?_⟩
      simp only [List.mem_cons, not_or]
      exact ⟨fun h1 => hx h1.symm, hu⟩

theorem takeWhile_ne_split (c : Char) (u v : Str) (hu : c ∉ u) :
    (u ++ c :: v).takeWhile (fun x => decide (x ≠ c)) = u := by
  rw [List.takeWhile_append_of_pos (by
    intro a ha
    simp only [ne_eq, decide_eq_true_eq]
    exact fun h => hu (h ▸ ha))]
  simp [List.takeWhile_cons]

theorem strchr_split (c : Char) (u v : Str) (hu : c ∉ u) :
    strchr (u ++ c :: v) c = some u.length := by
  unfold strchr
  rw [if_pos (by simp), takeWhile_ne_split c u v hu]

theorem strchr_none (c : Char) (s : Str) (h : c ∉ s) : strchr s c = none := by
  unfold strchr
  rw [if_neg h]

theorem fgets_aux_all (l : Str) (hnl : '\n' ∉ l) :
    ∀ n, l.length ≤ n → fgets_aux n l = (l, []) := by
  induction l with
  | nil => intro n _; cases n <;> simp [fgets_aux]
  | cons c cs ih =>
    intro n hn
    obtain ⟨m, rfl⟩ : ∃ m, n = m + 1 := ⟨n - 1, by simp at hn; omega⟩
    have hc : c ≠ '\n' := fun h => hnl (by simp [h])
    have hcs : '\n' ∉ cs := fun h => hnl (by simp [h])
    simp [fgets_aux, hc, ih hcs m (by simpa using hn)]

/-- What `fgets` reads of a line that fits the buffer and is ended by a newline or by the
end of the stream. -/
theorem fgets_line_or_end (size : Nat) (l tail : Str) (hne : l ≠ []) (hnl : '\n' ∉ l)
    (hfit : l.length + 1 < size) (htail : tail = [] ∨ tail.head? = some '\n') :
    ∃ term : Str, (term = [] ∨ term = ['\n']) ∧
      fgets size (l ++ tail) = some (l ++ term, tail.tail) := by
  rcases htail with h | h
  · subst h
    refine ⟨[], Or.inl rfl, ?_⟩
    simp only [fgets, List.append_nil, hne, if_false, List.tail_nil]
    rw [fgets_aux_all l hnl (size - 1) (by omega)]
  · obtain ⟨rest, rfl⟩ : ∃ rest, tail = '\n' :: rest := by
      cases tail with
      | nil => simp at h
      | cons t ts => simp at h; exact ⟨ts, by rw [h]⟩
    exact ⟨['\n'], Or.inr rfl, fgets_line size l rest hnl hfit⟩

theorem cstr_of_not_mem (l : Str) (h : '\x00' ∉ l) : cstr l = l := by
  unfold cstr
  rw [List.takeWhile_eq_self_iff]
  intro c hc
  simp only [ne_eq, decide_eq_true_eq]
  exact fun hz => h (hz ▸ hc)

theorem cstr_append (a b : Str) (h : '\x00' ∉ a) : cstr (a ++ b) = a ++ cstr b := by
  unfold cstr
  rw [List.takeWhile_append_of_pos]
  intro c hc
  simp only [ne_eq, decide_eq_true_eq]
  exact fun hz => h (hz ▸ hc)

theorem not_mem_cstr (l : Str) : '\x00' ∉ cstr l := by
  intro hm
  have := List.mem_takeWhile_imp hm
  simp at this

theorem cstr_length_le (l : Str) : (cstr l).length ≤ l.length :=
  (List.takeWhile_sublist _).length_le

theorem cstr_head (c : Char) (l : Str) (d : Char) (h : (cstr (c :: l)).head? = some d) :
    d = c := by
  unfold cstr at h
  rw [List.takeWhile_cons] at h
  split at h
  · simpa using h.symm
  · simp at h

/-- C4, as stated, fails: in the request line `G`, NUL, `ET /x HTTP/1.0` the method `G NUL ET`
is non-empty and free of whitespace, yet `parse_request_method` returns -1: for `strtok` the
buffer ends at the NUL, so that the first token is `G` and there is no second one. -/
theorem parse_request_method_nul_in_method :
    (∀ c ∈ "G\x00ET".toList, c ∉ example_world.WHITESPACE) ∧
    (parse_request_method example_world
      (example_request "G\x00ET /x HTTP/1.0\nHost: localhost\n\n")).1 = -1 := by
  decide

/-- C4, amended: a request line METHOD, whitespace, TARGET, whitespace, VERSION that fits the
read buffer (METHOD and TARGET non-empty and free of whitespace, whitespace being the
characters of `WHITESPACE`), with no NUL byte up to the end of TARGET, ended by a newline or
by the end of the stream: `parse_request_method` returns 0 with `method = METHOD`; when
TARGET contains `?`, `uri` is the part before the first `?` and `query` all that follows
it, otherwise `uri = TARGET` and `query` is the empty string; `uri` never contains `?`. -/
theorem parse_request_method_splits (W : World) (r : Request)
    (METHOD TARGET VERSION sep1 sep2 tail : Str)
    (hM : METHOD ≠ []) (hT : TARGET ≠ [])
    (hMws : ∀ c ∈ METHOD, c ∉ W.WHITESPACE) (hTws : ∀ c ∈ TARGET, c ∉ W.WHITESPACE)
    (hs1 : sep1 ≠ []) (hs2 : sep2 ≠ [])
    (hs1ws : ∀ c ∈ sep1, c ∈ W.WHITESPACE) (hs2ws : ∀ c ∈ sep2, c ∈ W.WHITESPACE)
    (hnl : '\n' ∉ METHOD ++ sep1 ++ TARGET ++ sep2 ++ VERSION)
    (hnul : '\x00' ∉ METHOD ++ sep1 ++ TARGET)
    (hfit : (METHOD ++ sep1 ++ TARGET ++ sep2 ++ VERSION).length + 1 < W.BUFSIZ)
    (htail : tail = [] ∨ tail.head? = some '\n')
    (hin : r.input = METHOD ++ sep1 ++ TARGET ++ sep2 ++ VERSION ++ tail) :
    ∃ uri query,
      parse_request_method W r
        = (0, { r with input := tail.tail, method := some METHOD, uri := some uri,
                       query := some query }) ∧
      '?' ∉ uri ∧
      (∀ u q, TARGET = u ++ '?' :: q → '?' ∉ u → uri = u ∧ query = q) ∧
      ('?' ∉ TARGET → uri = TARGET ∧ query = []) := by
  obtain ⟨s1, ss1, rfl⟩ : ∃ a as, sep1 = a :: as := by
    cases sep1 with
    | nil => exact absurd rfl hs1
    | cons a as => exact ⟨a, as, rfl⟩
  obtain ⟨s2, ss2, rfl⟩ : ∃ a as, sep2 = a :: as := by
    cases sep2 with
    | nil => exact absurd rfl hs2
    | cons a as => exact ⟨a, as, rfl⟩
  have hline : METHOD ++ (s1 :: ss1) ++ TARGET ++ (s2 :: ss2) ++ VERSION ≠ [] := by
    cases METHOD with
    | nil => exact absurd rfl hM
    | cons m ms => simp
  obtain ⟨term, _, hfg0⟩ := fgets_line_or_end W.BUFSIZ _ tail hline hnl hfit htail
  have hfg : fgets W.BUFSIZ r.input
      = some ((METHOD ++ (s1 :: ss1) ++ TARGET ++ (s2 :: ss2) ++ VERSION) ++ term,
          tail.tail) := by
    rw [hin]
    exact hfg0
  obtain ⟨post, hpost, hbuf⟩ : ∃ post : Str, (∀ c, post.head? = some c → c ∈ W.WHITESPACE) ∧
      cstr ((METHOD ++ (s1 :: ss1) ++ TARGET ++ (s2 :: ss2) ++ VERSION) ++ term)
        = ([] : Str) ++ METHOD ++ (s1 :: (ss1 ++ TARGET ++ post)) := by
    refine ⟨cstr ((s2 :: ss2) ++ VERSION ++ term), ?_, ?_⟩
    · intro c hc
      rw [List.append_assoc, List.cons_append] at hc
      rw [cstr_head s2 _ c hc]
      exact hs2ws s2 (by simp)
    · have e : (METHOD ++ (s1 :: ss1) ++ TARGET ++ (s2 :: ss2) ++ VERSION) ++ term
          = (METHOD ++ (s1 :: ss1) ++ TARGET) ++ ((s2 :: ss2) ++ VERSION ++ term) := by
        simp
      rw [e, cstr_append _ _ hnul]
      simp
  have htok1 := strtok_token W.WHITESPACE [] METHOD
    (s1 :: (ss1 ++ TARGET ++ post)) (by simp) hM hMws
    (by intro c hc; simp at hc; exact hs1ws c (by simp [hc]))
  have hsub1 := substr_middle [] METHOD (s1 :: (ss1 ++ TARGET ++ post))
  have hnext : (([] : Str) ++ METHOD ++ (s1 :: (ss1 ++ TARGET ++ post))).drop
          (([] : Str).length + METHOD.length + 1)
      = ss1 ++ TARGET ++ post := by
    simp only [List.nil_append, List.length_nil, Nat.zero_add]
    rw [← List.drop_drop, List.drop_left]
    simp
  have htok2 := strtok_token W.WHITESPACE ss1 TARGET post
    (fun c hc => hs1ws c (by simp [hc])) hT hTws hpost
  have hsub2 := substr_middle ss1 TARGET post
  by_cases hq : '?' ∈ TARGET
  · obtain ⟨u, q, huq, hu⟩ := exists_first_split '?' TARGET hq
    refine ⟨u, q, ?_, hu, ?_, fun h => absurd hq h⟩
    · unfold parse_request_method
      simp only [hfg, hbuf, htok1, hsub1, hnext, htok2, hsub2]
      rw [huq, strchr_split '?' u q hu]
      simp
    · intro u2 q2 h2 hu2
      have e1 := takeWhile_ne_split '?' u q hu
      have e2 := takeWhile_ne_split '?' u2 q2 hu2
      rw [← huq] at e1
      rw [← h2] at e2
      have hu_eq : u = u2 := by rw [← e1, ← e2]
      subst hu_eq
      rw [huq] at h2
      exact ⟨rfl, by simpa using h2⟩
  · refine ⟨TARGET, [], ?_, hq, ?_, fun _ => ⟨rfl, rfl⟩⟩
    · unfold parse_request_method
      simp only [hfg, hbuf, htok1, hsub1, hnext, htok2, hsub2]
      rw [strchr_none '?' TARGET hq]
    · intro u q huq _
      exact absurd (by simp [huq]) hq

/-- Witness for C4 amended: the request line `GET /cgi.script?q=foo HTTP/1.0`. -/
theorem parse_request_method_splits_witness :
    parse_request_method example_world
        (example_request "GET /cgi.script?q=foo HTTP/1.0\r\nHost: localhost\r\n\r\n")
      = (0, { example_request "GET /cgi.script?q=foo HTTP/1.0\r\nHost: localhost\r\n\r\n" with
              input := "Host: localhost\r\n\r\n".toList, method := some "GET".toList,
              uri := some "/cgi.script".toList, query := some "q=foo".toList }) := by
  obtain ⟨uri, query, h, _, hsplit, _⟩ := parse_request_method_splits example_world
    (example_request "GET /cgi.script?q=foo HTTP/1.0\r\nHost: localhost\r\n\r\n")
    "GET".toList "/cgi.script?q=foo".toList "HTTP/1.0\r".toList " ".toList " ".toList
    "\nHost: localhost\r\n\r\n".toList
    (by decide) (by decide) (by decide) (by decide) (by decide) (by decide) (by decide)
    (by decide) (by decide) (by decide) (by decide) (by decide) (by decide)
  obtain ⟨h1, h2⟩ := hsplit "/cgi.script".toList "q=foo".toList (by decide) (by decide)
  rw [h, h1, h2]
  rfl

/-! ### The header loop -/

theorem parse_request_headers_loop_eq (W : World) (fuel : Nat) (r : Request) :
    parse_request_headers_loop W fuel r =
      match fgets W.BUFSIZ r.input with
      | none => some (true, r)
      | some (buffer, rest) =>
        if (cstr buffer).length > 2 then
          match parse_header_line (chomp (cstr buffer)) with
          | none => some (false, { r with input := rest })
          | some curr =>
            match fuel with
            | 0 => none
            | fuel + 1 =>
              parse_request_headers_loop W fuel
                { r with input := rest, headers := curr :: r.headers }
        else some (true, { r with input := rest }) := by
  rw [parse_request_headers_loop]

theorem cstr_line (l : Str) (hnul : '\x00' ∉ l) : cstr (l ++ ['\n']) = l ++ ['\n'] := by
  apply cstr_of_not_mem
  intro h
  rcases List.mem_append.mp h with h1 | h1
  · exact hnul h1
  · simp at h1

theorem header_block_append (ls : List Str) (l : Str) :
    header_block (ls ++ [l]) = header_block ls ++ l ++ ['\n'] := by
  induction ls with
  | nil => simp [header_block]
  | cons x xs ih => simp [header_block, ih]

theorem header_block_length (ls : List Str) : ls.length ≤ (header_block ls).length := by
  induction ls with
  | nil => simp
  | cons x xs ih => simp [header_block]; omega

theorem strtok_some_of_exists (delim s : Str) (h : ∃ c ∈ s, c ∉ delim) :
    ∃ b e, strtok delim s = some (b, e) ∧ b < s.length := by
  have hlt : (s.takeWhile (fun c => decide (c ∈ delim))).length < s.length := by
    induction s with
    | nil => obtain ⟨c, hc, _⟩ := h; simp at hc
    | cons x xs ih =>
      by_cases hx : x ∈ delim
      · have h2 : ∃ c ∈ xs, c ∉ delim := by
          obtain ⟨c, hc, hcd⟩ := h
          rcases List.mem_cons.mp hc with h1 | h1
          · exact absurd (h1 ▸ hx) hcd
          · exact ⟨c, h1, hcd⟩
        simp [List.takeWhile_cons, hx, ih h2]
      · simp [List.takeWhile_cons, hx]
  unfold strtok
  simp only [hlt, if_true]
  exact ⟨_, _, rfl, hlt⟩

theorem parse_header_line_some (l : Str) (hnul : '\x00' ∉ l) (hc : ':' ∈ l)
    (hx : ∃ c ∈ l, c ≠ ':') :
    ∃ h, parse_header_line l = some h ∧ h.name ≠ none := by
  obtain ⟨b, e, hbe, _⟩ := strtok_some_of_exists [':'] l
    (by obtain ⟨c, hcl, hne⟩ := hx; exact ⟨c, hcl, by simpa using hne⟩)
  unfold parse_header_line strchr
  simp only [cstr_of_not_mem l hnul, hc, if_true, hbe]
  exact ⟨_, rfl, by simp⟩

theorem parse_header_line_none (l : Str) (hc : ':' ∉ l) : parse_header_line l = none := by
  have hc2 : ':' ∉ cstr l := fun h => hc ((List.takeWhile_sublist _).subset h)
  unfold parse_header_line
  simp only [strchr_none ':' (cstr l) hc2]

theorem drop_length_sub_dropWhile (p : Char → Bool) (l : Str) :
    l.drop (l.length - (l.dropWhile p).length) = l.dropWhile p := by
  have h := List.takeWhile_append_dropWhile p l
  have hlen : l.length - (l.dropWhile p).length = (l.takeWhile p).length := by
    have := congrArg List.length h
    simp only [List.length_append] at this
    omega
  rw [hlen]
  have h2 := List.drop_left (l.takeWhile p) (l.dropWhile p)
  rw [h] at h2
  exact h2

theorem parse_header_line_named (name v : Str) (hne : name ≠ []) (hname : ':' ∉ name)
    (hnul : '\x00' ∉ name ++ ':' :: v) :
    parse_header_line (name ++ ':' :: v)
      = some { name := some name, data := some (skip_whitespace v) } := by
  have htok := strtok_token [':'] [] name (':' :: v) (by simp) hne
    (by intro c hc; simp only [List.mem_singleton]; exact fun h => hname (h ▸ hc))
    (by intro c hc; simp at hc; simp [← hc])
  have hsub := substr_middle [] name (':' :: v)
  simp only [List.nil_append, List.length_nil, Nat.zero_add] at htok hsub
  have hdrop : (name ++ ':' :: v).drop (name.length + 1) = v := by
    rw [← List.drop_drop, List.drop_left]
    simp
  have hle : (v.dropWhile isspace).length ≤ v.length :=
    (List.dropWhile_sublist isspace).length_le
  unfold parse_header_line
  simp only [cstr_of_not_mem _ hnul]
  rw [strchr_split ':' name v hname]
  simp only [hdrop, htok, hsub, skip_whitespace]
  have hoff : (name ++ ':' :: v).length - (v.dropWhile isspace).length
      = name.length + 1 + (v.length - (v.dropWhile isspace).length) := by
    simp only [List.length_append, List.length_cons]
    omega
  have hgt : ¬ (name ++ ':' :: v).length - (v.dropWhile isspace).length ≤ name.length := by
    rw [hoff]; omega
  unfold cstr_from
  rw [if_neg hgt, hoff, ← List.drop_drop, hdrop, drop_length_sub_dropWhile]

theorem exists_headers_of_ok (W : World) (lines : List Str)
    (hlines : ∀ l ∈ lines, header_line_ok W l) :
    ∃ hs : List Header,
      List.Forall₂ (fun l h => parse_header_line l = some h ∧ h.name ≠ none) lines hs := by
  induction lines with
  | nil => exact ⟨[], List.Forall₂.nil⟩
  | cons l ls ih =>
    obtain ⟨hs, hhs⟩ := ih (fun x hx => hlines x (by simp [hx]))
    obtain ⟨_, hnul, _, hc, hx, _⟩ := hlines l (by simp)
    obtain ⟨h, hh⟩ := parse_header_line_some l hnul hc hx
    exact ⟨h :: hs, List.Forall₂.cons hh hhs⟩

/-- The loop over a block of good lines: one iteration and one new entry per line. -/
theorem parse_request_headers_loop_lines (W : World) :
    ∀ (lines : List Str) (hs : List Header) (fuel : Nat) (r : Request) (tail : Str),
      List.Forall₂ (fun l h => parse_header_line l = some h ∧ h.name ≠ none) lines hs →
      (∀ l ∈ lines, header_line_ok W l) →
      r.input = header_block lines ++ tail →
      lines.length ≤ fuel →
      parse_request_headers_loop W fuel r
        = parse_request_headers_loop W (fuel - lines.length)
            { r with input := tail, headers := hs.reverse ++ r.headers } := by
  intro lines
  induction lines with
  | nil =>
    intro hs fuel r tail hfa _ hin _
    cases hfa
    simp only [header_block, List.nil_append] at hin
    simp [← hin]
  | cons l ls ih =>
    intro hs fuel r tail hfa hok hin hfuel
    cases hfa with
    | cons hh hrest =>
      rename_i h hs1
      obtain ⟨hnl, hnul, hlen, _, _, hfit⟩ := hok l (by simp)
      obtain ⟨f, rfl⟩ : ∃ f, fuel = f + 1 := ⟨fuel - 1, by simp at hfuel; omega⟩
      have hfg : fgets W.BUFSIZ r.input = some (l ++ ['\n'], header_block ls ++ tail) := by
        rw [hin]
        simp only [header_block, List.append_assoc, List.cons_append]
        exact fgets_line W.BUFSIZ l _ hnl hfit
      rw [parse_request_headers_loop_eq]
      simp only [hfg, cstr_line l hnul, chomp_line, hh.1]
      have hgt : (l ++ ['\n']).length > 2 := by simp; omega
      rw [if_pos hgt]
      rw [ih hs1 f _ tail hrest (fun x hx => hok x (by simp [hx])) rfl
        (by simp at hfuel; omega)]
      simp

theorem parse_request_headers_loop_total (W : World) :
    ∀ (fuel : Nat) (r : Request), r.input.length ≤ fuel →
      ∃ b r', parse_request_headers_loop W fuel r = some (b, r') ∧
        ∃ newer, r'.headers = newer ++ r.headers := by
  intro fuel
  induction fuel with
  | zero =>
    intro r h
    have hnil : r.input = [] := List.length_eq_zero.mp (Nat.le_zero.mp h)
    rw [parse_request_headers_loop_eq]
    simp only [fgets, hnil, if_true]
    exact ⟨true, r, rfl, [], rfl⟩
  | succ f ih =>
    intro r h
    rw [parse_request_headers_loop_eq]
    cases hfg : fgets W.BUFSIZ r.input with
    | none => exact ⟨true, r, rfl, [], rfl⟩
    | some br =>
      obtain ⟨buffer, rest⟩ := br
      have hl := fgets_length W.BUFSIZ r.input buffer rest hfg
      have hcl := cstr_length_le buffer
      by_cases hgt : (cstr buffer).length > 2
      · simp only [hgt, if_true]
        cases hp : parse_header_line (chomp (cstr buffer)) with
        | none => exact ⟨false, _, rfl, [], rfl⟩
        | some curr =>
          obtain ⟨b, r', hr', newer, hnewer⟩ :=
            ih { r with input := rest, headers := curr :: r.headers } (by simp; omega)
          refine ⟨b, r', hr', newer ++ [curr], ?_⟩
          simp [hnewer]
      · simp only [hgt, if_false]
        exact ⟨true, _, rfl, [], rfl⟩

/-- C5, as stated, fails three times. A line made of colons only (`::`) is not blank and
contains `:`, yet `parse_request_headers` returns -1 on it. A line longer than the read
buffer (here 262 characters against `BUFSIZ = 256`) is read in two pieces, the second of
which has no `:`, so that parsing returns -1 as well. And for the line `Na`, NUL, `me: v`,
not blank and with a `:`, the buffer holds the C string `Na` of length 2: the loop ends
there and no entry is stored for the line. -/
theorem parse_request_headers_rejects_colon_line :
    (parse_request_headers example_world (example_request "::\n\n")).map
      (fun res => (res.1, res.2.headers)) = some (-1, [{ name := none, data := none }]) ∧
    (parse_request_headers small_buffer_world
        { example_request "" with
          input := "A:".toList ++ List.replicate 260 'b' ++ "\n\n".toList }).map
      (fun res => res.1) = some (-1) ∧
    (parse_request_headers example_world (example_request "Na\x00me: v\n\n")).map
      (fun res => (res.1, res.2.headers)) = some (0, [{ name := none, data := none }]) := by
  decide

/-- C5, amended: for a header block of at least one line, its lines newline-terminated,
free of NUL bytes, each fitting the read buffer, not blank (more than one character before
the newline), containing `:` and containing a character other than `:`, followed by a blank
line or by the end of the stream, `parse_request_headers` on a request as `accept_request`
leaves it returns 0, and the header list holds exactly one entry per line, the newest
first, each with a name, followed only by the nameless entry `accept_request` allocated. -/
theorem parse_request_headers_one_entry_per_line (W : World) (r : Request)
    (lines : List Str) (tail : Str)
    (hne : lines ≠ [])
    (hlines : ∀ l ∈ lines, header_line_ok W l)
    (htail : tail = [] ∨ ∃ b rest, tail = b ++ '\n' :: rest ∧ '\n' ∉ b ∧ b.length ≤ 1)
    (hin : r.input = header_block lines ++ tail)
    (hacc : r.headers = [{ name := none, data := none }]) :
    ∃ (r' : Request) (hs : List Header),
      parse_request_headers W r = some (0, r') ∧
      List.Forall₂ (fun l h => parse_header_line l = some h ∧ h.name ≠ none) lines hs ∧
      hs ≠ [] ∧
      r'.headers = hs.reverse ++ [{ name := none, data := none }] := by
  obtain ⟨hs, hhs⟩ := exists_headers_of_ok W lines hlines
  have hhsne : hs ≠ [] := by
    intro h
    subst h
    cases hhs
    exact hne rfl
  have hfuel : lines.length ≤ r.input.length := by
    rw [hin, List.length_append]
    have := header_block_length lines
    omega
  have hloop := parse_request_headers_loop_lines W lines hs r.input.length r tail hhs hlines
    hin hfuel
  rcases htail with htail | ⟨b, rest, htail, hnl, hlen⟩
  · refine ⟨{ r with input := tail, headers := hs.reverse ++ r.headers }, hs, ?_, hhs, hhsne,
      ?_⟩
    · unfold parse_request_headers
      rw [hloop, parse_request_headers_loop_eq]
      simp [fgets, htail, hacc]
    · simp [hacc]
  · refine ⟨{ r with input := rest, headers := hs.reverse ++ r.headers }, hs, ?_, hhs, hhsne,
      ?_⟩
    · have hfg : fgets W.BUFSIZ (b ++ '\n' :: rest) = some (b ++ ['\n'], rest) :=
        fgets_line W.BUFSIZ b rest hnl (by have := W.BUFSIZ_min; omega)
      have hshort : ¬ (cstr (b ++ ['\n'])).length > 2 := by
        have := cstr_length_le (b ++ ['\n'])
        simp only [List.length_append, List.length_singleton] at this
        omega
      unfold parse_request_headers
      rw [hloop, parse_request_headers_loop_eq]
      simp only [htail, hfg, hshort, if_false]
      simp [hacc]
    · simp [hacc]

/-- Witness for C5 amended: two header lines ended by a blank line. -/
theorem parse_request_headers_one_entry_per_line_witness :
    ∃ (r' : Request) (hs : List Header),
      parse_request_headers example_world
          (example_request "Host: localhost\r\nAccept: text/html\r\n\r\n") = some (0, r') ∧
      List.Forall₂ (fun l h => parse_header_line l = some h ∧ h.name ≠ none)
        ["Host: localhost\r".toList, "Accept: text/html\r".toList] hs ∧
      hs ≠ [] ∧
      r'.headers = hs.reverse ++ [{ name := none, data := none }] :=
  parse_request_headers_one_entry_per_line example_world
    (example_request "Host: localhost\r\nAccept: text/html\r\n\r\n")
    ["Host: localhost\r".toList, "Accept: text/html\r".toList] "\r\n".toList
    (by decide)
    (by
      intro l hl
      simp only [List.mem_cons, List.mem_singleton, List.not_mem_nil, or_false] at hl
      rcases hl with rfl | rfl
      · exact ⟨by decide, by decide, by decide, by decide, ⟨'H', by decide, by decide⟩,
          by decide⟩
      · exact ⟨by decide, by decide, by decide, by decide, ⟨'A', by decide, by decide⟩,
          by decide⟩)
    (Or.inr ⟨"\r".toList, [], by decide, by decide, by decide⟩)
    (by decide) (by decide)

theorem fgets_aux_no_newline (l : Str) (hnl : '\n' ∉ l) :
    ∀ (n : Nat) (rest : Str), n ≤ l.length → (fgets_aux n (l ++ rest)).1 = l.take n := by
  induction l with
  | nil =>
    intro n rest hn
    have hn0 : n = 0 := by simpa using hn
    subst hn0
    simp [fgets_aux]
  | cons c cs ih =>
    intro n rest hn
    cases n with
    | zero => simp [fgets_aux]
    | succ m =>
      have hc : c ≠ '\n' := fun h => hnl (by simp [h])
      have hcs : '\n' ∉ cs := fun h => hnl (by simp [h])
      simp [fgets_aux, hc, ih hcs m rest (by simpa using hn)]

/-- A line without `:` and without NUL that is not blank makes the loop body return -1,
whether or not the line fits the read buffer. -/
theorem parse_request_headers_loop_no_colon (W : World) (fuel : Nat) (r : Request)
    (l rest : Str) (hlen : 1 < l.length) (hc : ':' ∉ l) (hnl : '\n' ∉ l)
    (hnul : '\x00' ∉ l)
    (hin : r.input = l ++ '\n' :: rest) :
    ∃ r', parse_request_headers_loop W fuel r = some (false, r') := by
  have hmin := W.BUFSIZ_min
  rw [parse_request_headers_loop_eq]
  by_cases hfit : l.length + 1 < W.BUFSIZ
  · have hfg : fgets W.BUFSIZ r.input = some (l ++ ['\n'], rest) := by
      rw [hin]; exact fgets_line W.BUFSIZ l rest hnl hfit
    have hgt : (l ++ ['\n']).length > 2 := by simp; omega
    simp only [hfg, cstr_line l hnul, hgt, if_true, chomp_line, parse_header_line_none l hc]
    exact ⟨_, rfl⟩
  · have hne : l ++ '\n' :: rest ≠ [] := by simp
    have h1 : (fgets_aux (W.BUFSIZ - 1) (l ++ '\n' :: rest)).1 = l.take (W.BUFSIZ - 1) :=
      fgets_aux_no_newline l hnl (W.BUFSIZ - 1) _ (by omega)
    have hfg : fgets W.BUFSIZ r.input
        = some (l.take (W.BUFSIZ - 1), (fgets_aux (W.BUFSIZ - 1) (l ++ '\n' :: rest)).2) := by
      rw [hin]
      simp only [fgets, hne, if_false, ← h1]
    have hgt : (l.take (W.BUFSIZ - 1)).length > 2 := by
      rw [List.length_take]; omega
    have hnl2 : '\n' ∉ l.take (W.BUFSIZ - 1) := fun h => hnl (List.mem_of_mem_take h)
    have hc2 : ':' ∉ l.take (W.BUFSIZ - 1) := fun h => hc (List.mem_of_mem_take h)
    have hnul2 : '\x00' ∉ l.take (W.BUFSIZ - 1) := fun h => hnul (List.mem_of_mem_take h)
    simp only [hfg, cstr_of_not_mem _ hnul2, hgt, if_true, chomp_of_no_newline _ hnl2,
      parse_header_line_none _ hc2]
    exact ⟨_, rfl⟩

/-- C6, as stated, fails on what a C string and a fixed read buffer can hold. The line
`Host: a`, NUL, `b` is not blank and contains `:`, and the text after its first `:` is
`a NUL b` once the blank is stripped; the entry stored under the name `Host` does not have
that value, the C string ending at the NUL. And of a line longer than the read buffer
(`A:` with 260 `b`, against `BUFSIZ = 256`) the entry stored under the name `A` does not
hold the 260 `b` of the line, only what the first read took, and parsing then returns -1 on
the rest of the line. Last, the line `a`, NUL, `bcdef` is not blank and has no `:`, yet
parsing does not fail on it: the buffer holds the C string `a` and the loop ends. -/
theorem parse_request_headers_value_cut :
    (parse_request_headers example_world (example_request "Host: a\x00b\n\n")).map
      (fun res => (res.1, res.2.headers.map (fun h => h.name)))
      = some (0, [some "Host".toList, none]) ∧
    (parse_request_headers example_world (example_request "Host: a\x00b\n\n")).map
      (fun res => res.2.headers.map (fun h => h.data))
      ≠ some [some "a\x00b".toList, none] ∧
    (parse_request_headers small_buffer_world
        { example_request "" with
          input := "A:".toList ++ List.replicate 260 'b' ++ "\n\n".toList }).map
      (fun res => (res.1, res.2.headers.map (fun h => h.name)))
      = some (-1, [some "A".toList, none]) ∧
    (parse_request_headers small_buffer_world
        { example_request "" with
          input := "A:".toList ++ List.replicate 260 'b' ++ "\n\n".toList }).map
      (fun res => res.2.headers.map (fun h => h.data))
      ≠ some [some (List.replicate 260 'b'), none] ∧
    (parse_request_headers example_world (example_request "a\x00bcdef\n\n")).map
      (fun res => res.1) = some 0 := by
  decide

/-- Evaluation at a line that begins with `:`, which the amended C6 leaves out: for `:a:b`
the call `strtok(buffer, ":")` skips the leading colon and ends the buffer after `a`, so
that the entry stored has name `a` and value `a`. -/
theorem parse_request_headers_leading_colon :
    (parse_request_headers example_world (example_request ":a:b\n\n")).map
      (fun res => (res.1, res.2.headers))
      = some (0, [{ name := some "a".toList, data := some "a".toList },
                  { name := none, data := none }]) := by
  decide

/-- C6, amended: a newline-terminated header line free of NUL bytes that fits the read
buffer and has a non-empty text `name` before its first `:` (so the line does not begin
with `:`), coming after any number of header lines, is stored as the entry with name `name`
and as value the text after that first `:` with leading whitespace stripped, the newline
excluded; and a line free of NUL bytes that is not blank and has no `:` makes
`parse_request_headers` return -1. -/
theorem parse_request_headers_entry (W : World) (r : Request) (lines : List Str) (rest : Str)
    (hlines : ∀ l ∈ lines, header_line_ok W l) :
    (∀ name v : Str, name ≠ [] → ':' ∉ name → '\n' ∉ name ++ ':' :: v →
      '\x00' ∉ name ++ ':' :: v →
      (name ++ ':' :: v).length + 1 < W.BUFSIZ →
      r.input = header_block lines ++ (name ++ ':' :: v) ++ '\n' :: rest →
      ∃ (rc : Int) (r' : Request) (newer older : List Header),
        parse_request_headers W r = some (rc, r') ∧
        r'.headers
          = newer ++ { name := some name, data := some (skip_whitespace v) } :: older ∧
        older.length = lines.length + r.headers.length) ∧
    (∀ l : Str, 1 < l.length → ':' ∉ l → '\n' ∉ l → '\x00' ∉ l →
      r.input = header_block lines ++ l ++ '\n' :: rest →
      ∃ r', parse_request_headers W r = some (-1, r')) := by
  obtain ⟨hs, hhs⟩ := exists_headers_of_ok W lines hlines
  have hhslen : hs.length = lines.length := hhs.length_eq.symm
  constructor
  · intro name v hne hname hnl hnul hfit hin
    have hcolon : ':' ∈ name ++ ':' :: v := by simp
    have hok : ∀ l ∈ lines ++ [name ++ ':' :: v], header_line_ok W l := by
      intro l hl
      rcases List.mem_append.mp hl with h1 | h1
      · exact hlines l h1
      · simp only [List.mem_singleton] at h1
        subst h1
        obtain ⟨c, cs, rfl⟩ : ∃ c cs, name = c :: cs := by
          cases name with
          | nil => exact absurd rfl hne
          | cons c cs => exact ⟨c, cs, rfl⟩
        refine ⟨hnl, hnul, by simp, hcolon, ⟨c, by simp, ?_⟩, hfit⟩
        exact fun h => hname (by simp [h])
    have hhs2 : List.Forall₂ (fun l h => parse_header_line l = some h ∧ h.name ≠ none)
        (lines ++ [name ++ ':' :: v])
        (hs ++ [{ name := some name, data := some (skip_whitespace v) }]) :=
      List.rel_append hhs
        (List.Forall₂.cons ⟨parse_header_line_named name v hne hname hnul, by simp⟩
          List.Forall₂.nil)
    have hin2 : r.input = header_block (lines ++ [name ++ ':' :: v]) ++ rest := by
      rw [hin, header_block_append]
      simp
    have hblen := header_block_length (lines ++ [name ++ ':' :: v])
    have hfuel : (lines ++ [name ++ ':' :: v]).length ≤ r.input.length := by
      rw [hin2]
      simp only [List.length_append] at hblen ⊢
      omega
    have hloop := parse_request_headers_loop_lines W _ _ r.input.length r rest hhs2 hok hin2
      hfuel
    obtain ⟨b, r', hr', newer, hnewer⟩ := parse_request_headers_loop_total W
      (r.input.length - (lines ++ [name ++ ':' :: v]).length)
      { r with input := rest,
               headers := (hs ++ [({ name := some name,
                                     data := some (skip_whitespace v) } : Header)]).reverse
                            ++ r.headers }
      (by
        have h3 : r.input.length
            = (header_block (lines ++ [name ++ ':' :: v])).length + rest.length := by
          rw [hin2, List.length_append]
        simp only
        omega)
    rw [← hloop] at hr'
    refine ⟨if b = true then (if r'.headers.isEmpty then -1 else 0) else -1, r', newer,
      hs.reverse ++ r.headers, ?_, ?_, ?_⟩
    · unfold parse_request_headers
      rw [hr']
      cases b
      · simp
      · by_cases he : r'.headers.isEmpty <;> simp [he]
    · rw [hnewer]
      simp
    · simp [hhslen]
  · intro l hlen hc hnl hnul hin
    have hfuel : lines.length ≤ r.input.length := by
      rw [hin]
      simp only [List.length_append]
      have := header_block_length lines
      omega
    have hloop := parse_request_headers_loop_lines W lines hs r.input.length r
      (l ++ '\n' :: rest) hhs hlines (by rw [hin]; simp) hfuel
    obtain ⟨r', hr'⟩ := parse_request_headers_loop_no_colon W
      (r.input.length - lines.length)
      { r with input := l ++ '\n' :: rest, headers := hs.reverse ++ r.headers }
      l rest hlen hc hnl hnul rfl
    refine ⟨r', ?_⟩
    unfold parse_request_headers
    rw [hloop, hr']

/-- Witness for C6 amended: the line `Accept:  text/html` after a `Host` line, and the line
`garbage` without a colon after the same `Host` line. -/
theorem parse_request_headers_entry_witness :
    (∃ (rc : Int) (r' : Request) (newer older : List Header),
      parse_request_headers example_world
          (example_request "Host: localhost\nAccept:  text/html\n\n") = some (rc, r') ∧
      r'.headers
        = newer ++ { name := some "Accept".toList, data := some "text/html".toList } :: older ∧
      older.length = 2) ∧
    (∃ r', parse_request_headers example_world
        (example_request "Host: localhost\ngarbage\n\n") = some (-1, r')) :=
  have hlines : ∀ l ∈ ["Host: localhost".toList], header_line_ok example_world l := by
    intro l hl
    simp only [List.mem_singleton] at hl
    subst hl
    exact ⟨by decide, by decide, by decide, by decide, ⟨'H', by decide, by decide⟩,
      by decide⟩
  ⟨(parse_request_headers_entry example_world
      (example_request "Host: localhost\nAccept:  text/html\n\n")
      ["Host: localhost".toList] "\n".toList hlines).1
      "Accept".toList "  text/html".toList (by decide) (by decide) (by decide) (by decide)
      (by decide) (by decide),
   (parse_request_headers_entry example_world
      (example_request "Host: localhost\ngarbage\n\n")
      ["Host: localhost".toList] "\n".toList hlines).2
      "garbage".toList (by decide) (by decide) (by decide) (by decide) (by decide)⟩

/-! ## Static files -/

theorem fputs_of_room_none (s : Str) (r : Request) (h : r.room = none) :
    fputs s r = { r with output := r.output ++ s } := by
  unfold fputs
  rw [h]

theorem handle_file_request_copy_eq (W : World) (fuel : Nat) (fs : Str) (r : Request) :
    handle_file_request_copy W fuel fs r =
      if (fs.take W.BUFSIZ).length > 0 then
        if (fwrite (fs.take W.BUFSIZ) r).1 < 0 then some (false, (fwrite (fs.take W.BUFSIZ) r).2)
        else
          match fuel with
          | 0 => none
          | fuel + 1 =>
            handle_file_request_copy W fuel (fs.drop W.BUFSIZ) (fwrite (fs.take W.BUFSIZ) r).2
      else some (true, r) := by
  rw [handle_file_request_copy.eq_def]

/-- The copy loop never takes `goto fail`, and with fuel for every byte it reaches the end
of the file; on a connection that accepts every write it has then written the whole file. -/
theorem handle_file_request_copy_total (W : World) :
    ∀ (fuel : Nat) (fs : Str) (r : Request), fs.length ≤ fuel →
      ∃ r', handle_file_request_copy W fuel fs r = some (true, r') ∧
        (r.room = none → r'.output = r.output ++ fs) := by
  have hmin := W.BUFSIZ_min
  intro fuel
  induction fuel with
  | zero =>
    intro fs r h
    have hnil : fs = [] := List.length_eq_zero.mp (Nat.le_zero.mp h)
    subst hnil
    rw [handle_file_request_copy_eq]
    exact ⟨r, by simp, by simp⟩
  | succ f ih =>
    intro fs r h
    rw [handle_file_request_copy_eq]
    by_cases hpos : (fs.take W.BUFSIZ).length > 0
    · have hfs : 0 < fs.length := by
        rw [List.length_take] at hpos; omega
      obtain ⟨r', hr', hout⟩ := ih (fs.drop W.BUFSIZ) (fwrite (fs.take W.BUFSIZ) r).2
        (by rw [List.length_drop]; omega)
      refine ⟨r', ?_, ?_⟩
      · simp only [hpos, if_true, Nat.not_lt_zero, if_false]
        exact hr'
      · intro hroom
        have h2 : (fwrite (fs.take W.BUFSIZ) r).2 = { r with output := r.output ++ fs.take W.BUFSIZ } :=
          fputs_of_room_none _ r hroom
        rw [hout (by rw [h2]; exact hroom), h2]
        simp
    · have hnil : fs = [] := by
        rw [List.length_take] at hpos
        have : fs.length = 0 := by omega
        exact List.length_eq_zero.mp this
      subst hnil
      exact ⟨r, by simp, by simp⟩

/-- C7: evaluation of `handle_file_request` on a connection that accepts the 44 bytes of the
status line and headers and nothing more: the `fwrite` of the only chunk returns 0 of 12
bytes, yet the function returns `HTTP_STATUS_OK`, where the claim asks for
`HTTP_STATUS_INTERNAL_SERVER_ERROR`. Indeed the function returns that status on no input at
all: the test `fwrite(...) < 0` compares an unsigned count and never holds. -/
theorem handle_file_request_ignores_failed_write :
    (fwrite "<h1>hi</h1>\n".toList
      { example_request "" with
        output := "HTTP/1.0 200 OK\r\nContent-Type: text/html\r\n\r\n".toList,
        room := some 0 }).1 = 0 ∧
    (handle_file_request example_world
        { example_request "" with
          path := some "/var/www/index.html".toList, room := some 44 }).map
      (fun res => (res.1, res.2.output))
      = some (Status.HTTP_STATUS_OK,
          "HTTP/1.0 200 OK\r\nContent-Type: text/html\r\n\r\n".toList) ∧
    ∀ (W : World) (r : Request),
      (handle_file_request W r).map (fun res => res.1)
        ≠ some Status.HTTP_STATUS_INTERNAL_SERVER_ERROR := by
  refine ⟨by decide, by decide, ?_⟩
  intro W r
  cases hp : r.path with
  | none => simp [handle_file_request, hp]
  | some path =>
    cases hf : W.fopen path with
    | none => simp [handle_file_request, hp, hf, handle_error]
    | some fs =>
      cases hm : determine_mimetype W path with
      | none => simp [handle_file_request, hp, hf, hm]
      | some mimetype =>
        obtain ⟨r', hr', _⟩ := handle_file_request_copy_total W fs.length fs
          (fputs "\r\n".toList (fputs ("Content-Type: ".toList ++ mimetype ++ "\r\n".toList)
            (fputs "HTTP/1.0 200 OK\r\n".toList r))) (Nat.le_refl _)
        unfold handle_file_request
        simp only [hp, hf, hm, hr']
        simp

/-- C10: for a file that can be opened, with content `B` and looked-up content type `T`,
`handle_file_request` returns `HTTP_STATUS_OK`, and on a connection that accepts every write
it has written exactly the status line `HTTP/1.0 200 OK`, the header `Content-Type: T`, the
blank line and then `B`, byte for byte, whatever the length of `B`; no other header
(no `Content-Length`) is written. A file that cannot be opened gives the 404 error
response. -/
theorem handle_file_request_streams_file (W : World) (r : Request) (path : Str)
    (hpath : r.path = some path) :
    (∀ B T : Str, W.fopen path = some B → determine_mimetype W path = some T →
      ∃ r', handle_file_request W r = some (Status.HTTP_STATUS_OK, r') ∧
        (r.room = none →
          r'.output = r.output ++ "HTTP/1.0 200 OK\r\n".toList
            ++ ("Content-Type: ".toList ++ T ++ "\r\n".toList) ++ "\r\n".toList ++ B)) ∧
    (W.fopen path = none →
      handle_file_request W r = some (handle_error r Status.HTTP_STATUS_NOT_FOUND)) := by
  constructor
  · intro B T hB hT
    obtain ⟨r', hr', hout⟩ := handle_file_request_copy_total W B.length B
      (fputs "\r\n".toList (fputs ("Content-Type: ".toList ++ T ++ "\r\n".toList)
        (fputs "HTTP/1.0 200 OK\r\n".toList r))) (Nat.le_refl _)
    refine ⟨r', ?_, ?_⟩
    · unfold handle_file_request
      simp only [hpath, hB, hT, hr']
    · intro hroom
      rw [hout (by simp [fputs, hroom])]
      simp [fputs, hroom]
  · intro hB
    unfold handle_file_request
    simp only [hpath, hB]

/-- Witness for C10: `/var/www/index.html` with the mime-types entry `text/html html htm`. -/
theorem handle_file_request_streams_file_witness :
    example_world.fopen "/var/www/index.html".toList = some "<h1>hi</h1>\n".toList ∧
    determine_mimetype example_world "/var/www/index.html".toList = some "text/html".toList ∧
    ∃ r', handle_file_request example_world
        { example_request "" with path := some "/var/www/index.html".toList }
          = some (Status.HTTP_STATUS_OK, r') ∧
      r'.output = "HTTP/1.0 200 OK\r\nContent-Type: text/html\r\n\r\n<h1>hi</h1>\n".toList :=
  have h := (handle_file_request_streams_file example_world
    { example_request "" with path := some "/var/www/index.html".toList }
    "/var/www/index.html".toList rfl).1 "<h1>hi</h1>\n".toList "text/html".toList
    (by decide) (by decide)
  ⟨by decide, by decide, h.elim fun r' hr' => ⟨r', hr'.1, by rw [hr'.2 rfl]; decide⟩⟩

/-! ## Dispatch -/

/-- C8: for a request that parsed and whose path resolved, `handle_request` chooses by the
metadata of the path alone: a failing `stat` gives the 404 error response, a directory the
directory listing, a regular file with execute permission CGI execution (whatever its read
permission), a regular file with read but without execute permission static file serving,
and a path that is neither a directory nor a regular file the 400 error response. -/
theorem handle_request_dispatch (W : World) (r r1 : Request) (uri path : Str)
    (hparse : parse_request W r = some (0, r1)) (huri : r1.uri = some uri)
    (hresolved : determine_request_path W uri = some path) :
    (W.stat path = none →
      handle_request W r
        = some (assigned (handle_error { r1 with path := some path }
            Status.HTTP_STATUS_NOT_FOUND))) ∧
    (W.stat path = some FileType.directory →
      handle_request W r
        = (handle_browse_request W { r1 with path := some path }).map assigned) ∧
    (W.stat path = some FileType.regular → W.access path AccessMode.X_OK = 0 →
      handle_request W r
        = (handle_cgi_request W { r1 with path := some path }).map assigned) ∧
    (W.stat path = some FileType.regular → W.access path AccessMode.X_OK ≠ 0 →
      W.access path AccessMode.R_OK = 0 →
      handle_request W r
        = (handle_file_request W { r1 with path := some path }).map assigned) ∧
    (W.stat path = some FileType.special →
      handle_request W r
        = some (assigned (handle_error { r1 with path := some path }
            Status.HTTP_STATUS_BAD_REQUEST))) := by
  refine ⟨?_, ?_, ?_, ?_, ?_⟩
  · intro hs
    unfold handle_request
    simp [hparse, huri, hresolved, hs]
  · intro hs
    unfold handle_request
    simp [hparse, huri, hresolved, hs]
  · intro hs hx
    unfold handle_request
    simp [hparse, huri, hresolved, hs, hx]
  · intro hs hx hr
    unfold handle_request
    simp [hparse, huri, hresolved, hs, hx, hr]
  · intro hs
    unfold handle_request
    simp [hparse, huri, hresolved, hs]

/-- Witness for C8: the five kinds of path of the example file system; `cgi.sh` may be
both executed and read and goes to CGI execution. -/
theorem handle_request_dispatch_witness :
    handle_request example_world (example_request "GET /missing HTTP/1.0\r\nHost: h\r\n\r\n")
      = some (assigned (handle_error
          { example_parsed "GET /missing HTTP/1.0\r\nHost: h\r\n\r\n" with
            path := some "/var/www/missing".toList } Status.HTTP_STATUS_NOT_FOUND)) ∧
    handle_request example_world (example_request "GET /docs HTTP/1.0\r\nHost: h\r\n\r\n")
      = (handle_browse_request example_world
          { example_parsed "GET /docs HTTP/1.0\r\nHost: h\r\n\r\n" with
            path := some "/var/www/docs".toList }).map assigned ∧
    (example_world.access "/var/www/cgi.sh".toList AccessMode.R_OK = 0 ∧
     handle_request example_world (example_request "GET /cgi.sh HTTP/1.0\r\nHost: h\r\n\r\n")
      = (handle_cgi_request example_world
          { example_parsed "GET /cgi.sh HTTP/1.0\r\nHost: h\r\n\r\n" with
            path := some "/var/www/cgi.sh".toList }).map assigned) ∧
    handle_request example_world
        (example_request "GET /index.html HTTP/1.0\r\nHost: h\r\n\r\n")
      = (handle_file_request example_world
          { example_parsed "GET /index.html HTTP/1.0\r\nHost: h\r\n\r\n" with
            path := some "/var/www/index.html".toList }).map assigned ∧
    handle_request example_world (example_request "GET /fifo HTTP/1.0\r\nHost: h\r\n\r\n")
      = some (assigned (handle_error
          { example_parsed "GET /fifo HTTP/1.0\r\nHost: h\r\n\r\n" with
            path := some "/var/www/fifo".toList } Status.HTTP_STATUS_BAD_REQUEST)) :=
  ⟨(handle_request_dispatch example_world
      (example_request "GET /missing HTTP/1.0\r\nHost: h\r\n\r\n")
      (example_parsed "GET /missing HTTP/1.0\r\nHost: h\r\n\r\n")
      "/missing".toList "/var/www/missing".toList
      (by decide) (by decide) (by decide)).1 (by decide),
   (handle_request_dispatch example_world
      (example_request "GET /docs HTTP/1.0\r\nHost: h\r\n\r\n")
      (example_parsed "GET /docs HTTP/1.0\r\nHost: h\r\n\r\n")
      "/docs".toList "/var/www/docs".toList
      (by decide) (by decide) (by decide)).2.1 (by decide),
   ⟨by decide,
    (handle_request_dispatch example_world
      (example_request "GET /cgi.sh HTTP/1.0\r\nHost: h\r\n\r\n")
      (example_parsed "GET /cgi.sh HTTP/1.0\r\nHost: h\r\n\r\n")
      "/cgi.sh".toList "/var/www/cgi.sh".toList
      (by decide) (by decide) (by decide)).2.2.1 (by decide) (by decide)⟩,
   (handle_request_dispatch example_world
      (example_request "GET /index.html HTTP/1.0\r\nHost: h\r\n\r\n")
      (example_parsed "GET /index.html HTTP/1.0\r\nHost: h\r\n\r\n")
      "/index.html".toList "/var/www/index.html".toList
      (by decide) (by decide) (by decide)).2.2.2.1 (by decide) (by decide) (by decide),
   (handle_request_dispatch example_world
      (example_request "GET /fifo HTTP/1.0\r\nHost: h\r\n\r\n")
      (example_parsed "GET /fifo HTTP/1.0\r\nHost: h\r\n\r\n")
      "/fifo".toList "/var/www/fifo".toList
      (by decide) (by decide) (by decide)).2.2.2.2 (by decide)⟩

/-! ## Directory listing -/

theorem char_toNat_injective (a b : Char) (h : a.toNat = b.toNat) : a = b := by
  rw [← Char.ofNat_toNat a, ← Char.ofNat_toNat b, h]

theorem strcmp_eq_zero_iff : ∀ a b : Str, strcmp a b = 0 ↔ a = b := by
  intro a
  induction a with
  | nil => intro b; cases b <;> simp [strcmp]
  | cons x xs ih =>
    intro b
    cases b with
    | nil => simp [strcmp]
    | cons y ys =>
      by_cases hxy : x = y
      · simp [strcmp, hxy, ih ys]
      · by_cases hlt : x.toNat < y.toNat <;> simp [strcmp, hxy, hlt]

theorem streq_iff (a b : Str) : streq a b = true ↔ a = b := by
  simp [streq, strcmp_eq_zero_iff]

theorem strcmp_total : ∀ a b : Str, strcmp a b ≤ 0 ∨ strcmp b a ≤ 0 := by
  intro a
  induction a with
  | nil => intro b; cases b <;> simp [strcmp]
  | cons x xs ih =>
    intro b
    cases b with
    | nil => simp [strcmp]
    | cons y ys =>
      by_cases hxy : x = y
      · subst hxy
        simpa [strcmp] using ih ys
      · have hyx : ¬ y = x := fun h => hxy h.symm
        have hne : x.toNat ≠ y.toNat := fun h => hxy (char_toNat_injective x y h)
        by_cases hlt : x.toNat < y.toNat
        · left; simp [strcmp, hxy, hlt]
        · right
          have hlt2 : y.toNat < x.toNat := by omega
          simp [strcmp, hyx, hlt2]

theorem strcmp_trans : ∀ a b c : Str, strcmp a b ≤ 0 → strcmp b c ≤ 0 → strcmp a c ≤ 0 := by
  intro a
  induction a with
  | nil => intro b c _ _; cases c <;> simp [strcmp]
  | cons x xs ih =>
    intro b c hab hbc
    cases b with
    | nil => simp [strcmp] at hab
    | cons y ys =>
      cases c with
      | nil => simp [strcmp] at hbc
      | cons z zs =>
        by_cases hxy : x = y
        · subst hxy
          by_cases hxz : x = z
          · subst hxz
            simp only [strcmp, if_true] at hab hbc ⊢
            exact ih ys zs hab hbc
          · by_cases hlt : x.toNat < z.toNat
            · simp [strcmp, hxz, hlt]
            · simp [strcmp, hxz, hlt] at hbc
        · by_cases hlt : x.toNat < y.toNat
          · by_cases hyz : y = z
            · subst hyz
              simp [strcmp, hxy, hlt]
            · by_cases hlt2 : y.toNat < z.toNat
              · have hxz : ¬ x = z := fun h => by subst h; omega
                have hlt3 : x.toNat < z.toNat := by omega
                simp [strcmp, hxz, hlt3]
              · simp [strcmp, hyz, hlt2] at hbc
          · simp [strcmp, hxy, hlt] at hab

theorem browse_entries_output (uri : Str) :
    ∀ (entries : List Str) (r : Request), r.room = none →
      (entries.foldl (browse_entry uri) r).room = none ∧
      (entries.foldl (browse_entry uri) r).output
        = r.output ++ ((entries.filter (fun n => decide (n ≠ ".".toList))).map
            (fun n => "<li>".toList ++ browse_link uri n ++ "</li>\n".toList)).flatten := by
  intro entries
  induction entries with
  | nil => intro r h; simp [h]
  | cons d ds ih =>
    intro r h
    by_cases hd : d = ".".toList
    · have hs : streq d ".".toList = true := (streq_iff _ _).mpr hd
      have hd2 : d = ['.'] := hd
      have hstep : browse_entry uri r d = r := by
        simp only [browse_entry, hs, Bool.not_true, Bool.false_eq_true, if_false]
      simp only [List.foldl_cons, hstep]
      obtain ⟨h1, h2⟩ := ih r h
      refine ⟨h1, ?_⟩
      rw [h2]
      simp [hd2]
    · have hs : streq d ".".toList = false := by
        cases hsd : streq d ".".toList with
        | false => rfl
        | true => exact absurd ((streq_iff _ _).mp hsd) hd
      have hd2 : ¬ d = ['.'] := hd
      have hstep : browse_entry uri r d
          = { r with output := r.output ++ ("<li>".toList ++ browse_link uri d
                ++ "</li>\n".toList) } := by
        simp only [browse_entry, hs, Bool.not_false, if_true, fputs, h, List.append_assoc]
      simp only [List.foldl_cons, hstep]
      obtain ⟨h1, h2⟩ := ih { r with output := r.output ++ ("<li>".toList ++ browse_link uri d
                ++ "</li>\n".toList) } h
      refine ⟨h1, ?_⟩
      rw [h2]
      simp [hd2]

theorem repeat_fputs_output (s : Str) :
    ∀ (l : List Nat) (r : Request), r.room = none →
      (l.foldl (fun r _ => fputs s r) r).output
        = r.output ++ (List.replicate l.length s).flatten := by
  intro l
  induction l with
  | nil => intro r _; simp
  | cons a as ih =>
    intro r h
    simp only [List.foldl_cons, List.length_cons, List.replicate_succ, List.flatten_cons]
    rw [ih (fputs s r) (by simp [fputs, h])]
    simp [fputs, h]

/-- C9: when the scan of the directory succeeds, `handle_browse_request` returns
`HTTP_STATUS_OK` and, on a connection that accepts every write, writes the page head, then
exactly one list item per directory entry other than `.` (`..` and hidden entries
included), in the order of `alphasort`, each a link whose target is the URI (empty for `/`)
followed by `/` and the entry name and whose visible text is the entry name, then the page
tail. When the scan fails the result is the 404 error response. -/
theorem handle_browse_request_listing (W : World) (r : Request) (path uri : Str)
    (hpath : r.path = some path) (huri : r.uri = some uri) :
    (∀ entries : List Str, W.scandir path = some entries →
      ∃ (names : List Str) (r' : Request),
        handle_browse_request W r = some (Status.HTTP_STATUS_OK, r') ∧
        names.Perm (entries.filter (fun n => decide (n ≠ ".".toList))) ∧
        names.Sorted (fun a b => alphasort a b ≤ 0) ∧
        (r.room = none →
          r'.output = r.output ++ "HTTP/1.0 200 OK\r\n".toList
            ++ "Content-Type: text/html\r\n".toList ++ "\r\n".toList
            ++ browse_page_head ++ "<ul>\n".toList
            ++ (names.map (fun n =>
                  "<li>".toList
                  ++ ("<a href=\"".toList ++ (if uri = "/".toList then [] else uri)
                      ++ "/".toList ++ n ++ "\">".toList ++ n ++ "</a>".toList)
                  ++ "</li>\n".toList)).flatten
            ++ "</ul>\n".toList ++ (List.replicate 50 "<br>".toList).flatten)) ∧
    (W.scandir path = none →
      handle_browse_request W r = some (handle_error r Status.HTTP_STATUS_NOT_FOUND)) := by
  constructor
  · intro entries hscan
    haveI : IsTotal Str (fun a b => alphasort a b ≤ 0) := ⟨fun a b => strcmp_total a b⟩
    haveI : IsTrans Str (fun a b => alphasort a b ≤ 0) := ⟨fun a b c => strcmp_trans a b c⟩
    have hsc : scandir W path
        = some (entries.insertionSort (fun a b => alphasort a b ≤ 0)) := by
      simp [scandir, hscan]
    refine ⟨(entries.insertionSort (fun a b => alphasort a b ≤ 0)).filter
        (fun n => decide (n ≠ ".".toList)),
      (List.range 50).foldl (fun r _ => fputs "<br>".toList r)
        (fputs "</ul>\n".toList
          ((entries.insertionSort (fun a b => alphasort a b ≤ 0)).foldl (browse_entry uri)
            (fputs "<ul>\n".toList (fputs browse_page_head (fputs "\r\n".toList
              (fputs "Content-Type: text/html\r\n".toList
                (fputs "HTTP/1.0 200 OK\r\n".toList r))))))), ?_, ?_, ?_, ?_⟩
    · unfold handle_browse_request
      simp only [hpath, huri, hsc]
    · exact (List.perm_insertionSort _ entries).filter _
    · exact (List.sorted_insertionSort _ entries).filter _
    · intro hroom
      have hroom5 : (fputs "<ul>\n".toList (fputs browse_page_head (fputs "\r\n".toList
          (fputs "Content-Type: text/html\r\n".toList
            (fputs "HTTP/1.0 200 OK\r\n".toList r))))).room = none := by
        simp [fputs, hroom]
      obtain ⟨h1, h2⟩ := browse_entries_output uri
        (entries.insertionSort (fun a b => alphasort a b ≤ 0)) _ hroom5
      have hlink : ∀ n : Str, browse_link uri n
          = "<a href=\"".toList ++ (if uri = "/".toList then [] else uri)
              ++ "/".toList ++ n ++ "\">".toList ++ n ++ "</a>".toList := by
        intro n
        unfold browse_link
        by_cases hu : uri = "/".toList
        · rw [if_pos ((streq_iff _ _).mpr hu), if_pos hu]
        · have hs : ¬ streq uri "/".toList = true := fun h => hu ((streq_iff _ _).mp h)
          rw [if_neg hs, if_neg hu]
      rw [repeat_fputs_output "<br>".toList (List.range 50) _
        (by rw [fputs_of_room_none _ _ h1]; exact h1)]
      rw [fputs_of_room_none _ _ h1]
      simp only [h2, List.length_range]
      simp only [hlink]
      simp [fputs, hroom]
  · intro hscan
    unfold handle_browse_request
    simp [hpath, huri, scandir, hscan]

/-- Witness for C9: the directory `/var/www/docs` holding `a.txt`, `b.txt`, `.`, `..` and
`.hidden`; the links written are those of `..`, `.hidden`, `a.txt`, `b.txt`, in that order. -/
theorem handle_browse_request_listing_witness :
    (∃ (names : List Str) (r' : Request),
      handle_browse_request example_world
          { example_request "" with
            path := some "/var/www/docs".toList, uri := some "/docs".toList }
        = some (Status.HTTP_STATUS_OK, r') ∧
      names.Perm ["a.txt".toList, "b.txt".toList, "..".toList, ".hidden".toList] ∧
      names.Sorted (fun a b => alphasort a b ≤ 0)) ∧
    (handle_browse_request example_world
        { example_request "" with
          path := some "/var/www/docs".toList, uri := some "/docs".toList }).map
      (fun res => res.2.output)
      = some ("HTTP/1.0 200 OK\r\nContent-Type: text/html\r\n\r\n".toList
          ++ browse_page_head ++ "<ul>\n".toList
          ++ "<li><a href=\"/docs/..\">..</a></li>\n".toList
          ++ "<li><a href=\"/docs/.hidden\">.hidden</a></li>\n".toList
          ++ "<li><a href=\"/docs/a.txt\">a.txt</a></li>\n".toList
          ++ "<li><a href=\"/docs/b.txt\">b.txt</a></li>\n".toList
          ++ "</ul>\n".toList ++ (List.replicate 50 "<br>".toList).flatten) :=
  have h := (handle_browse_request_listing example_world
    { example_request "" with path := some "/var/www/docs".toList, uri := some "/docs".toList }
    "/var/www/docs".toList "/docs".toList rfl rfl).1
    ["a.txt".toList, "b.txt".toList, ".".toList, "..".toList, ".hidden".toList] (by decide)
  ⟨h.elim fun names hn => hn.elim fun r' hr' => ⟨names, r', hr'.1, hr'.2.1, hr'.2.2.1⟩,
   by decide⟩

/-! ## Termination of the loops -/

/-- The header loop of `parse_request_headers` never exhausts its fuel: the function
returns on every request. -/
theorem parse_request_headers_returns (W : World) (r : Request) :
    ∃ rc r', parse_request_headers W r = some (rc, r') ∧ (rc = 0 ∨ rc = -1) := by
  obtain ⟨b, r', hr', _⟩ := parse_request_headers_loop_total W r.input.length r (Nat.le_refl _)
  unfold parse_request_headers
  rw [hr']
  cases b
  · exact ⟨-1, r', rfl, Or.inr rfl⟩
  · by_cases he : r'.headers.isEmpty
    · exact ⟨-1, r', by simp [he], Or.inr rfl⟩
    · exact ⟨0, r', by simp [he], Or.inl rfl⟩

theorem handle_cgi_request_relay_eq (W : World) (fuel : Nat) (pfs : Str) (r : Request) :
    handle_cgi_request_relay W fuel pfs r =
      match fgets W.BUFSIZ pfs with
      | none => some r
      | some (buffer, rest) =>
        match fuel with
        | 0 => none
        | fuel + 1 =>
          handle_cgi_request_relay W fuel rest
            (fputs (buffer.takeWhile (fun c => decide (c ≠ '\x00'))) r) := by
  rw [handle_cgi_request_relay.eq_def]

theorem fgets_buffer_pos (W : World) (s buffer rest : Str)
    (h : fgets W.BUFSIZ s = some (buffer, rest)) : 0 < buffer.length := by
  have hmin := W.BUFSIZ_min
  unfold fgets at h
  split at h
  · exact absurd h (by simp)
  · rename_i hne
    simp only [Option.some.injEq] at h
    obtain ⟨m, hm⟩ : ∃ m, W.BUFSIZ - 1 = m + 1 := ⟨W.BUFSIZ - 2, by omega⟩
    rw [hm] at h
    cases s with
    | nil => exact absurd rfl hne
    | cons c cs =>
      have hb : buffer = (fgets_aux (m + 1) (c :: cs)).1 := by rw [h]
      rw [hb]
      by_cases hc : c = '\n' <;> simp [fgets_aux, hc]

/-- The relay loop of `handle_cgi_request` never exhausts its fuel. -/
theorem handle_cgi_request_relay_returns (W : World) :
    ∀ (fuel : Nat) (pfs : Str) (r : Request), pfs.length ≤ fuel →
      ∃ r', handle_cgi_request_relay W fuel pfs r = some r' := by
  intro fuel
  induction fuel with
  | zero =>
    intro pfs r h
    have hnil : pfs = [] := List.length_eq_zero.mp (Nat.le_zero.mp h)
    subst hnil
    rw [handle_cgi_request_relay_eq]
    exact ⟨r, by simp [fgets]⟩
  | succ f ih =>
    intro pfs r h
    rw [handle_cgi_request_relay_eq]
    cases hfg : fgets W.BUFSIZ pfs with
    | none => exact ⟨r, rfl⟩
    | some br =>
      obtain ⟨buffer, rest⟩ := br
      have hl := fgets_length W.BUFSIZ pfs buffer rest hfg
      have hpos := fgets_buffer_pos W pfs buffer rest hfg
      exact ih rest _ (by omega)

/-! ## The CGI environment -/

theorem getenv_setenv (env : List (Str × Str)) (name value x : Str) :
    getenv (setenv name value env) x = if x = name then some value else getenv env x := by
  unfold getenv setenv
  by_cases hx : x = name
  · subst hx
    simp
  · have hx2 : ¬ name = x := fun h => hx h.symm
    simp only [hx, if_false, List.find?_cons, hx2, decide_False]
    congr 1
    induction env with
    | nil => rfl
    | cons kv kvs ih =>
      by_cases hk : kv.1 = name
      · have hkx : ¬ kv.1 = x := fun h => hx (h ▸ hk)
        have hf : List.filter (fun kv => decide (kv.1 ≠ name)) (kv :: kvs)
            = List.filter (fun kv => decide (kv.1 ≠ name)) kvs := by
          rw [List.filter_cons]
          simp [hk]
        rw [hf, ih, List.find?_cons]
        simp only [hkx, decide_False]
      · have hf : List.filter (fun kv => decide (kv.1 ≠ name)) (kv :: kvs)
            = kv :: List.filter (fun kv => decide (kv.1 ≠ name)) kvs := by
          rw [List.filter_cons]
          simp [hk]
        rw [hf, List.find?_cons, List.find?_cons, ih]

theorem exported_variable_listed :
    ∀ kv ∈ cgi_header_variables, exported_variable kv.1 = some kv.2 := by
  decide

theorem cgi_header_variables_injective :
    ∀ a ∈ cgi_header_variables, ∀ b ∈ cgi_header_variables, a.2 = b.2 → a = b := by
  decide

theorem exported_variable_some (name var : Str) (h : exported_variable name = some var) :
    (name, var) ∈ cgi_header_variables := by
  unfold exported_variable at h
  cases hf : cgi_header_variables.find? (fun kv => decide (kv.1 = name)) with
  | none => rw [hf] at h; simp at h
  | some kv =>
    rw [hf] at h
    have h1 := List.find?_some hf
    have h2 := List.mem_of_find?_eq_some hf
    simp only [Option.map_some', Option.some.injEq] at h
    simp only [decide_eq_true_eq] at h1
    have : kv = (name, var) := Prod.ext h1 h
    rw [← this]
    exact h2

theorem export_entry_eq (name d : Str) (env : List (Str × Str)) :
    export_entry name (some d) env = some (export_step env (name, d)) := by
  unfold export_step
  by_cases h1 : name = "Host".toList
  · subst h1; rfl
  by_cases h2 : name = "Accept".toList
  · subst h2; rfl
  by_cases h3 : name = "Accept-Language".toList
  · subst h3; rfl
  by_cases h4 : name = "Accept-Encoding".toList
  · subst h4; rfl
  by_cases h5 : name = "Connection".toList
  · subst h5; rfl
  by_cases h6 : name = "User-Agent".toList
  · subst h6; rfl
  have e1 : streq name "Host".toList = false := by
    cases h : streq name "Host".toList with
    | false => rfl
    | true => exact absurd ((streq_iff _ _).mp h) h1
  have e2 : streq name "Accept".toList = false := by
    cases h : streq name "Accept".toList with
    | false => rfl
    | true => exact absurd ((streq_iff _ _).mp h) h2
  have e3 : streq name "Accept-Language".toList = false := by
    cases h : streq name "Accept-Language".toList with
    | false => rfl
    | true => exact absurd ((streq_iff _ _).mp h) h3
  have e4 : streq name "Accept-Encoding".toList = false := by
    cases h : streq name "Accept-Encoding".toList with
    | false => rfl
    | true => exact absurd ((streq_iff _ _).mp h) h4
  have e5 : streq name "Connection".toList = false := by
    cases h : streq name "Connection".toList with
    | false => rfl
    | true => exact absurd ((streq_iff _ _).mp h) h5
  have e6 : streq name "User-Agent".toList = false := by
    cases h : streq name "User-Agent".toList with
    | false => rfl
    | true => exact absurd ((streq_iff _ _).mp h) h6
  have hnone : exported_variable name = none := by
    cases hv : exported_variable name with
    | none => rfl
    | some var =>
      have hm := exported_variable_some name var hv
      simp only [cgi_header_variables, List.mem_cons, Prod.mk.injEq, List.mem_singleton,
        List.not_mem_nil, or_false] at hm
      rcases hm with h | h | h | h | h | h
      · exact absurd h.1 h1
      · exact absurd h.1 h2
      · exact absurd h.1 h3
      · exact absurd h.1 h4
      · exact absurd h.1 h5
      · exact absurd h.1 h6
  simp only [export_entry, export_header, e1, e2, e3, e4, e5, e6, hnone]
  rfl

theorem export_headers_cons_named (name : Str) (data : Option Str) (next : List Header)
    (env : List (Str × Str)) :
    export_headers ({ name := some name, data := data } :: next) env
      = (export_entry name data env).bind (export_headers next) := by
  simp only [export_headers, export_entry, Option.bind_assoc]

theorem export_headers_entries (tl : List Header) :
    ∀ (pairs : List (Str × Str)) (env : List (Str × Str)),
      export_headers (pairs.map header_entry ++ tl) env
        = export_headers tl (pairs.foldl export_step env) := by
  intro pairs
  induction pairs with
  | nil => intro env; rfl
  | cons nd nds ih =>
    intro env
    simp only [List.map_cons, List.cons_append, List.foldl_cons, header_entry]
    rw [export_headers_cons_named, export_entry_eq]
    simp only [Option.some_bind]
    exact ih _

theorem export_headers_terminal (data : Option Str) (next : List Header)
    (env : List (Str × Str)) :
    export_headers ({ name := none, data := data } :: next) env = some env := by
  simp only [export_headers]

theorem getenv_export_step_other (env : List (Str × Str)) (nd : Str × Str) (x : Str)
    (hx : ∀ kv ∈ cgi_header_variables, kv.1 = nd.1 → kv.2 ≠ x) :
    getenv (export_step env nd) x = getenv env x := by
  unfold export_step
  cases hv : exported_variable nd.1 with
  | none => rfl
  | some var =>
    have hm := exported_variable_some nd.1 var hv
    have hne : var ≠ x := hx (nd.1, var) hm rfl
    simp only
    rw [getenv_setenv, if_neg (fun h => hne h.symm)]

theorem getenv_foldl_export_step_other (x : Str)
    (hx : ∀ kv ∈ cgi_header_variables, kv.2 ≠ x) :
    ∀ (pairs : List (Str × Str)) (env : List (Str × Str)),
      getenv (pairs.foldl export_step env) x = getenv env x := by
  intro pairs
  induction pairs with
  | nil => intro env; rfl
  | cons nd nds ih =>
    intro env
    rw [List.foldl_cons, ih, getenv_export_step_other env nd x (fun kv hkv _ => hx kv hkv)]

/-- After the export loop has run over the entries, newest first, a listed variable holds
the value of the first-arrived header of its name, and its old value when there is none. -/
theorem getenv_export_arrival (kv : Str × Str) (hkv : kv ∈ cgi_header_variables)
    (env : List (Str × Str)) :
    ∀ headers : List (Str × Str),
      getenv (headers.reverse.foldl export_step env) kv.2
        = match headers.find? (fun nd => decide (nd.1 = kv.1)) with
          | some nd => some nd.2
          | none => getenv env kv.2 := by
  intro headers
  induction headers with
  | nil => rfl
  | cons nd nds ih =>
    rw [List.reverse_cons, List.foldl_append, List.foldl_cons, List.foldl_nil, List.find?_cons]
    by_cases hn : nd.1 = kv.1
    · have hv : exported_variable nd.1 = some kv.2 := by
        rw [hn]; exact exported_variable_listed kv hkv
      simp only [hn, decide_True, export_step]
      rw [hn] at hv
      simp only [hv, getenv_setenv, if_true]
    · simp only [hn, decide_False]
      rw [getenv_export_step_other _ nd kv.2, ih]
      intro kv2 hkv2 h1 h2
      have := cgi_header_variables_injective kv2 hkv2 kv hkv h2
      exact hn (by rw [← h1, this])

theorem parse_header_line_shape (l : Str) (h : Header) (hp : parse_header_line l = some h) :
    ∃ nd : Str × Str, h = header_entry nd := by
  unfold parse_header_line at hp
  cases hc : strchr (cstr l) ':' with
  | none => simp [hc] at hp
  | some i =>
    cases ht : strtok [':'] (cstr l) with
    | none => simp [hc, ht] at hp
    | some be =>
      obtain ⟨nb, ne⟩ := be
      simp only [hc, ht, Option.some.injEq] at hp
      exact ⟨(_, _), hp.symm⟩

theorem header_lines_eq (W : World) (fuel : Nat) (input : Str) :
    header_lines W fuel input =
      match fgets W.BUFSIZ input with
      | none => []
      | some (buffer, rest) =>
        if (cstr buffer).length > 2 then
          chomp (cstr buffer) ::
            (match fuel with
             | 0 => []
             | fuel + 1 => header_lines W fuel rest)
        else [] := by
  rw [header_lines.eq_def]

/-- A run of the header loop that ends normally has stored one entry per header line,
newest first, in front of the list it started with, and has changed nothing else but the
read position. -/
theorem parse_request_headers_loop_shape (W : World) :
    ∀ (fuel : Nat) (r r' : Request),
      parse_request_headers_loop W fuel r = some (true, r') →
      ∃ headers : List (Str × Str),
        List.Forall₂ (fun l nd => parse_header_line l = some (header_entry nd))
          (header_lines W fuel r.input) headers ∧
        r' = { r with input := r'.input,
                      headers := (headers.map header_entry).reverse ++ r.headers } := by
  intro fuel
  induction fuel with
  | zero =>
    intro r r' h
    rw [parse_request_headers_loop_eq] at h
    rw [header_lines_eq]
    cases hfg : fgets W.BUFSIZ r.input with
    | none =>
      simp only [hfg, Option.some.injEq, Prod.mk.injEq, true_and] at h
      exact ⟨[], List.Forall₂.nil, by rw [← h]; rfl⟩
    | some br =>
      obtain ⟨buffer, rest⟩ := br
      simp only [hfg] at h
      by_cases hgt : (cstr buffer).length > 2
      · simp only [hgt, if_true] at h
        cases hp : parse_header_line (chomp (cstr buffer)) with
        | none => simp [hp] at h
        | some curr => simp [hp] at h
      · simp only [hgt, if_false, Option.some.injEq, Prod.mk.injEq, true_and] at h
        simp only [hgt, if_false]
        exact ⟨[], List.Forall₂.nil, by rw [← h]; rfl⟩
  | succ f ih =>
    intro r r' h
    rw [parse_request_headers_loop_eq] at h
    rw [header_lines_eq]
    cases hfg : fgets W.BUFSIZ r.input with
    | none =>
      simp only [hfg, Option.some.injEq, Prod.mk.injEq, true_and] at h
      exact ⟨[], List.Forall₂.nil, by rw [← h]; rfl⟩
    | some br =>
      obtain ⟨buffer, rest⟩ := br
      simp only [hfg] at h
      by_cases hgt : (cstr buffer).length > 2
      · simp only [hgt, if_true] at h
        cases hp : parse_header_line (chomp (cstr buffer)) with
        | none => simp [hp] at h
        | some curr =>
          simp only [hp] at h
          obtain ⟨nd, hnd⟩ := parse_header_line_shape _ _ hp
          obtain ⟨headers, hfa, hr'⟩ := ih _ r' h
          simp only [hgt, if_true]
          refine ⟨nd :: headers, List.Forall₂.cons (by rw [hp, hnd]) hfa, ?_⟩
          rw [hr']
          simp [hnd]
      · simp only [hgt, if_false, Option.some.injEq, Prod.mk.injEq, true_and] at h
        simp only [hgt, if_false]
        exact ⟨[], List.Forall₂.nil, by rw [← h]; rfl⟩

theorem accept_request_shape (p : Peer) (r0 : Request)
    (hacc : accept_request p = some (some r0)) (halloc : p.alloc_headers = true) :
    r0 = { fd := p.fd, input := p.input, output := [], room := p.room,
           method := none, uri := none, path := none, query := none,
           host := p.host, port := p.port,
           headers := [{ name := none, data := none }] } := by
  unfold accept_request at hacc
  by_cases h1 : p.alloc_request = true
  · by_cases h2 : p.fd < 0
    · simp [h1, h2] at hacc
    · by_cases h3 : p.nameinfo < 0
      · simp [h1, h2, h3] at hacc
      · by_cases h4 : p.fdopen = true
        · simp [h1, h2, h3, h4, halloc] at hacc
          exact hacc.symm
        · simp [h1, h2, h3, h4] at hacc
  · simp [h1] at hacc

theorem parse_request_method_shape (W : World) (r r' : Request)
    (h : parse_request_method W r = (0, r')) :
    ∃ m u q : Str,
      r' = { r with input := r'.input, method := some m, uri := some u, query := some q } := by
  unfold parse_request_method at h
  cases hfg : fgets W.BUFSIZ r.input with
  | none => simp [hfg] at h
  | some br =>
    obtain ⟨buffer, rest⟩ := br
    simp only [hfg] at h
    cases ht1 : strtok W.WHITESPACE (cstr buffer) with
    | none => simp [ht1] at h
    | some me =>
      obtain ⟨mb, me⟩ := me
      simp only [ht1] at h
      cases ht2 : strtok W.WHITESPACE ((cstr buffer).drop (me + 1)) with
      | none => simp [ht2] at h
      | some ue =>
        obtain ⟨ub, ue⟩ := ue
        simp only [ht2] at h
        cases hq : strchr (substr ((cstr buffer).drop (me + 1)) ub ue) '?' with
        | none =>
          simp only [hq, Prod.mk.injEq, true_and] at h
          exact ⟨_, _, _, by rw [← h]⟩
        | some q =>
          simp only [hq, Prod.mk.injEq, true_and] at h
          exact ⟨_, _, _, by rw [← h]⟩

theorem parse_request_headers_ok (W : World) (r r' : Request)
    (h : parse_request_headers W r = some (0, r')) :
    parse_request_headers_loop W r.input.length r = some (true, r') := by
  unfold parse_request_headers at h
  split at h
  · simp at h
  · simp at h
  · rename_i r2 hl
    split at h
    · simp at h
    · simp only [Option.some.injEq, Prod.mk.injEq, true_and] at h
      rw [hl, h]

/-- The shape of a request that `accept_request` returned and `parse_request` parsed. -/
theorem parse_request_shape (W : World) (p : Peer) (r0 r1 : Request)
    (hacc : accept_request p = some (some r0)) (halloc : p.alloc_headers = true)
    (hparse : parse_request W r0 = some (0, r1)) :
    ∃ (m u q : Str) (headers : List (Str × Str)),
      r1.method = some m ∧ r1.uri = some u ∧ r1.query = some q ∧
      r1.host = p.host ∧ r1.port = p.port ∧
      r1.headers = (headers.map header_entry).reverse ++ [{ name := none, data := none }] := by
  have h0 := accept_request_shape p r0 hacc halloc
  unfold parse_request at hparse
  cases hm : parse_request_method W r0 with
  | mk rc r =>
    simp only [hm] at hparse
    by_cases hrc : rc = 0
    · subst hrc
      simp only [ne_eq, not_true_eq_false, if_false] at hparse
      cases hh : parse_request_headers W r with
      | none => simp [hh] at hparse
      | some res =>
        obtain ⟨rc2, r2⟩ := res
        simp only [hh] at hparse
        by_cases hrc2 : rc2 = 0
        · subst hrc2
          simp only [ne_eq, not_true_eq_false, if_false, Option.some.injEq, Prod.mk.injEq,
            true_and] at hparse
          subst hparse
          obtain ⟨m, u, q, hr⟩ := parse_request_method_shape W r0 r hm
          obtain ⟨headers, _, hr2⟩ := parse_request_headers_loop_shape W r.input.length r r2
            (parse_request_headers_ok W r r2 hh)
          refine ⟨m, u, q, headers, ?_, ?_, ?_, ?_, ?_, ?_⟩
          · rw [hr2, hr]
          · rw [hr2, hr]
          · rw [hr2, hr]
          · rw [hr2, hr, h0]
          · rw [hr2, hr, h0]
          · rw [hr2]
            simp only
            rw [hr, h0]
        · simp [hrc2] at hparse
    · simp [hrc] at hparse

theorem find?_first (p : Str × Str → Bool) (first : Str × Str) (after : List (Str × Str)) :
    ∀ before : List (Str × Str), (∀ nd ∈ before, p nd = false) → p first = true →
      (before ++ first :: after).find? p = some first := by
  intro before
  induction before with
  | nil => intro _ hf; simp [List.find?_cons, hf]
  | cons b bs ih =>
    intro hb hf
    have h1 : p b = false := hb b (by simp)
    rw [List.cons_append, List.find?_cons, h1]
    exact ih (fun nd hnd => hb nd (by simp [hnd])) hf

/-- C11: for a request that `accept_request` returned and `parse_request` parsed, with
resolved path `path`, the environment under which `handle_cgi_request` calls `popen` has
`QUERY_STRING`, `REMOTE_ADDR`, `REMOTE_PORT`, `REQUEST_METHOD`, `REQUEST_URI`,
`SCRIPT_FILENAME`, `DOCUMENT_ROOT` and `SERVER_PORT` set from the request and the
configuration; the loop body sets the variable of a listed header name (`Host`, `Accept`,
`Accept-Language`, `Accept-Encoding`, `Connection`, `User-Agent`) to that header's value and
changes nothing for any other name, so that in the end a listed variable holds the value of
a header of its name (the first-arrived one) and every other variable is what it was. -/
theorem handle_cgi_request_environment (W : World) (p : Peer) (r0 r1 : Request) (path : Str)
    (hacc : accept_request p = some (some r0)) (halloc : p.alloc_headers = true)
    (hparse : parse_request W r0 = some (0, r1)) :
    ∃ (env : List (Str × Str)) (headers : List (Str × Str)),
      r1.headers = (headers.map header_entry).reverse ++ [{ name := none, data := none }] ∧
      cgi_environment W { r1 with path := some path } = some env ∧
      handle_cgi_request W { r1 with path := some path }
        = (W.popen path env).bind (fun pfs =>
            (handle_cgi_request_relay W pfs.length pfs { r1 with path := some path }).map
              (fun r => (Status.HTTP_STATUS_OK, r))) ∧
      r1.query ≠ none ∧ getenv env "QUERY_STRING".toList = r1.query ∧
      getenv env "REMOTE_ADDR".toList = some p.host ∧
      getenv env "REMOTE_PORT".toList = some p.port ∧
      r1.method ≠ none ∧ getenv env "REQUEST_METHOD".toList = r1.method ∧
      r1.uri ≠ none ∧ getenv env "REQUEST_URI".toList = r1.uri ∧
      getenv env "SCRIPT_FILENAME".toList = some path ∧
      getenv env "DOCUMENT_ROOT".toList = some W.RootPath ∧
      getenv env "SERVER_PORT".toList = some W.Port ∧
      (∀ kv ∈ cgi_header_variables, ∀ (d : Str) (e : List (Str × Str)),
        export_entry kv.1 (some d) e = some (setenv kv.2 d e)) ∧
      (∀ (name d : Str) (e : List (Str × Str)),
        (∀ kv ∈ cgi_header_variables, kv.1 ≠ name) → export_entry name (some d) e = some e) ∧
      (∀ kv ∈ cgi_header_variables,
        getenv env kv.2
          = match headers.find? (fun nd => decide (nd.1 = kv.1)) with
            | some nd => some nd.2
            | none => getenv W.environ kv.2) ∧
      (∀ x : Str,
        x ∉ ["QUERY_STRING".toList, "REMOTE_ADDR".toList, "REMOTE_PORT".toList,
             "REQUEST_METHOD".toList, "REQUEST_URI".toList, "SCRIPT_FILENAME".toList,
             "DOCUMENT_ROOT".toList, "SERVER_PORT".toList] →
        (∀ kv ∈ cgi_header_variables, kv.2 ≠ x) → getenv env x = getenv W.environ x) := by
  obtain ⟨m, u, q, headers, hm, hu, hq, hhost, hport, hh⟩ :=
    parse_request_shape W p r0 r1 hacc halloc hparse
  have henv : cgi_environment W { r1 with path := some path }
      = some (headers.reverse.foldl export_step
          (setenv "SERVER_PORT".toList W.Port
            (setenv "DOCUMENT_ROOT".toList W.RootPath
              (setenv "SCRIPT_FILENAME".toList path
                (setenv "REQUEST_URI".toList u
                  (setenv "REQUEST_METHOD".toList m
                    (setenv "REMOTE_PORT".toList p.port
                      (setenv "REMOTE_ADDR".toList p.host
                        (setenv "QUERY_STRING".toList q W.environ))))))))) := by
    unfold cgi_environment
    simp only [hm, hu, hq, hh, hhost, hport]
    rw [← List.map_reverse, export_headers_entries, export_headers_terminal]
  have hother : ∀ x : Str, (∀ kv ∈ cgi_header_variables, kv.2 ≠ x) →
      ∀ e : List (Str × Str),
        getenv (headers.reverse.foldl export_step e) x = getenv e x :=
    fun x hx e => getenv_foldl_export_step_other x hx headers.reverse e
  refine ⟨_, headers, hh, henv, ?_, ?_, ?_, ?_, ?_, ?_, ?_, ?_, ?_, ?_, ?_, ?_, ?_, ?_, ?_, ?_⟩
  · unfold handle_cgi_request
    simp only [henv]
    cases W.popen path _ <;> rfl
  · rw [hq]; simp
  · rw [hother _ (by decide), hq]
    simp [getenv_setenv]
  · rw [hother _ (by decide)]
    simp [getenv_setenv]
  · rw [hother _ (by decide)]
    simp [getenv_setenv]
  · rw [hm]; simp
  · rw [hother _ (by decide), hm]
    simp [getenv_setenv]
  · rw [hu]; simp
  · rw [hother _ (by decide), hu]
    simp [getenv_setenv]
  · rw [hother _ (by decide)]
    simp [getenv_setenv]
  · rw [hother _ (by decide)]
    simp [getenv_setenv]
  · rw [hother _ (by decide)]
    simp [getenv_setenv]
  · intro kv hkv d e
    rw [export_entry_eq]
    simp only [export_step, exported_variable_listed kv hkv]
  · intro name d e hname
    rw [export_entry_eq]
    have hnone : exported_variable name = none := by
      cases hv : exported_variable name with
      | none => rfl
      | some var => exact absurd rfl (hname _ (exported_variable_some name var hv))
    simp only [export_step, hnone]
  · intro kv hkv
    rw [getenv_export_arrival kv hkv]
    cases headers.find? (fun nd => decide (nd.1 = kv.1)) with
    | some nd => rfl
    | none =>
      simp only
      have h8 : ∀ x ∈ ["QUERY_STRING".toList, "REMOTE_ADDR".toList, "REMOTE_PORT".toList,
             "REQUEST_METHOD".toList, "REQUEST_URI".toList, "SCRIPT_FILENAME".toList,
             "DOCUMENT_ROOT".toList, "SERVER_PORT".toList],
          ∀ kv ∈ cgi_header_variables, kv.2 ≠ x := by decide
      simp only [getenv_setenv]
      rw [if_neg (h8 _ (by simp) kv hkv), if_neg (h8 _ (by simp) kv hkv),
        if_neg (h8 _ (by simp) kv hkv), if_neg (h8 _ (by simp) kv hkv),
        if_neg (h8 _ (by simp) kv hkv), if_neg (h8 _ (by simp) kv hkv),
        if_neg (h8 _ (by simp) kv hkv), if_neg (h8 _ (by simp) kv hkv)]
  · intro x hx8 hx6
    rw [hother x hx6]
    simp only [List.mem_cons, List.mem_singleton, List.not_mem_nil, or_false, not_or] at hx8
    obtain ⟨h1, h2, h3, h4, h5, h6, h7, h8⟩ := hx8
    simp only [getenv_setenv]
    rw [if_neg h8, if_neg h7, if_neg h6, if_neg h5, if_neg h4, if_neg h3, if_neg h2, if_neg h1]

/-- Witness for C11: a request for `/cgi.sh?x=1` with the headers `Host` and `X-Other`. -/
theorem handle_cgi_request_environment_witness :
    (∃ (env : List (Str × Str)) (headers : List (Str × Str)),
      cgi_environment example_world
          { example_parsed "GET /cgi.sh?x=1 HTTP/1.0\nHost: h\nX-Other: y\n\n" with
            path := some "/var/www/cgi.sh".toList } = some env ∧
      getenv env "QUERY_STRING".toList = some "x=1".toList ∧
      getenv env "REMOTE_ADDR".toList = some "127.0.0.1".toList ∧
      getenv env "SCRIPT_FILENAME".toList = some "/var/www/cgi.sh".toList ∧
      ∀ kv ∈ cgi_header_variables,
        getenv env kv.2
          = match headers.find? (fun nd => decide (nd.1 = kv.1)) with
            | some nd => some nd.2
            | none => getenv example_world.environ kv.2) ∧
    (cgi_environment example_world
        { example_parsed "GET /cgi.sh?x=1 HTTP/1.0\nHost: h\nX-Other: y\n\n" with
          path := some "/var/www/cgi.sh".toList }).map
      (fun env => (getenv env "HTTP_HOST".toList, getenv env "HTTP_ACCEPT".toList,
        getenv env "HTTP_CONNECTION".toList, env.length))
      = some (some "h".toList, none, none, 9) :=
  have h := handle_cgi_request_environment example_world
    (example_peer "GET /cgi.sh?x=1 HTTP/1.0\nHost: h\nX-Other: y\n\n")
    (example_request "GET /cgi.sh?x=1 HTTP/1.0\nHost: h\nX-Other: y\n\n")
    (example_parsed "GET /cgi.sh?x=1 HTTP/1.0\nHost: h\nX-Other: y\n\n")
    "/var/www/cgi.sh".toList (by decide) (by decide) (by decide)
  ⟨h.elim fun env he => he.elim fun headers hh =>
      ⟨env, headers, hh.2.1,
        by rw [hh.2.2.2.2.1]; decide,
        hh.2.2.2.2.2.1,
        hh.2.2.2.2.2.2.2.2.2.2.2.1,
        hh.2.2.2.2.2.2.2.2.2.2.2.2.2.2.2.2.1⟩,
   by decide⟩

/-- C13: for a request that `accept_request` returned (allocations succeeding) and that
`parse_request_headers` then parsed successfully, the header list is the entries of the
header lines read, one per line, newest first, followed by exactly one entry without a
name; the export loop of `handle_cgi_request` therefore returns, never dereferencing a null
link, after visiting exactly these entries in list order, and a listed variable ends up with
the value of the first-arrived header of its name, whatever comes after it. -/
theorem parse_request_headers_list_terminated (W : World) (p : Peer) (r0 r r' : Request)
    (hacc : accept_request p = some (some r0)) (halloc : p.alloc_headers = true)
    (hsame : r.headers = r0.headers)
    (hparse : parse_request_headers W r = some (0, r')) :
    ∃ headers : List (Str × Str),
      List.Forall₂ (fun l nd => parse_header_line l = some (header_entry nd))
        (header_lines W r.input.length r.input) headers ∧
      r'.headers = (headers.map header_entry).reverse ++ [{ name := none, data := none }] ∧
      (∀ env : List (Str × Str),
        export_headers r'.headers env = some (headers.reverse.foldl export_step env)) ∧
      (∀ kv ∈ cgi_header_variables,
        ∀ (env : List (Str × Str)) (first : Str × Str) (before after : List (Str × Str)),
          headers = before ++ first :: after → first.1 = kv.1 →
          (∀ nd ∈ before, nd.1 ≠ kv.1) →
          (export_headers r'.headers env).bind (fun e => getenv e kv.2) = some first.2) := by
  have h0 := accept_request_shape p r0 hacc halloc
  obtain ⟨headers, hfa, hr'⟩ := parse_request_headers_loop_shape W r.input.length r r'
    (parse_request_headers_ok W r r' hparse)
  have hh : r'.headers
      = (headers.map header_entry).reverse ++ [{ name := none, data := none }] := by
    rw [hr']
    simp only
    rw [hsame, h0]
  have hexp : ∀ env : List (Str × Str),
      export_headers r'.headers env = some (headers.reverse.foldl export_step env) := by
    intro env
    rw [hh, ← List.map_reverse, export_headers_entries, export_headers_terminal]
  refine ⟨headers, hfa, hh, hexp, ?_⟩
  intro kv hkv env first before after hdec hfirst hbefore
  rw [hexp, Option.some_bind, getenv_export_arrival kv hkv, hdec,
    find?_first _ first after before (fun nd hnd => by simpa using hbefore nd hnd)
      (by simpa using hfirst)]

/-- Witness for C13: two `Host` lines; the exported `HTTP_HOST` is the value of the first. -/
theorem parse_request_headers_list_terminated_witness :
    (∃ headers : List (Str × Str),
      List.Forall₂ (fun l nd => parse_header_line l = some (header_entry nd))
        (header_lines example_world 38 "Host: first\nX: y\nHost: second\n\n".toList) headers ∧
      (example_parsed "GET / HTTP/1.0\nHost: first\nX: y\nHost: second\n\n").headers
        = (headers.map header_entry).reverse ++ [{ name := none, data := none }]) ∧
    (example_parsed "GET / HTTP/1.0\nHost: first\nX: y\nHost: second\n\n").headers
      = [header_entry ("Host".toList, "second".toList), header_entry ("X".toList, "y".toList),
         header_entry ("Host".toList, "first".toList), { name := none, data := none }] ∧
    (export_headers
        (example_parsed "GET / HTTP/1.0\nHost: first\nX: y\nHost: second\n\n").headers []).bind
      (fun e => getenv e "HTTP_HOST".toList) = some "first".toList :=
  have h := parse_request_headers_list_terminated example_world
    (example_peer "GET / HTTP/1.0\nHost: first\nX: y\nHost: second\n\n")
    (example_request "GET / HTTP/1.0\nHost: first\nX: y\nHost: second\n\n")
    (parse_request_method example_world
      (example_request "GET / HTTP/1.0\nHost: first\nX: y\nHost: second\n\n")).2
    (example_parsed "GET / HTTP/1.0\nHost: first\nX: y\nHost: second\n\n")
    (by decide) (by decide) (by decide) (by decide)
  ⟨h.elim fun headers hh => ⟨headers, hh.1, hh.2.1⟩, by decide, by decide⟩

/-! ## The forking server -/

theorem cons_eq_append_of_ne {α : Type} (e x : α) (t b a : List α) (hne : e ≠ x)
    (h : e :: t = b ++ x :: a) : ∃ b', b = e :: b' ∧ t = b' ++ x :: a := by
  cases b with
  | nil =>
    simp only [List.nil_append, List.cons.injEq] at h
    exact absurd h.1 hne
  | cons b0 bs =>
    simp only [List.cons_append, List.cons.injEq] at h
    exact ⟨bs, by rw [h.1], h.2⟩

theorem not_nil_eq_append_cons {α : Type} (x : α) (b a : List α) : ¬ ([] = b ++ x :: a) := by
  cases b <;> simp

/-- C12: in an execution of `forking_server` by one process, once `fork` has returned 0 (the
process is the worker of the connection accepted just before), what follows is exactly:
closing the listening socket, `handle_request` on that request, `free_request` on it,
`exit(EXIT_SUCCESS)`, and the process has exited; it holds whatever status `handle_request`
returned. No `accept_request` and no `fork` follows. (When `handle_request` does not return
because it ran into undefined behaviour, nothing follows the closing of the socket.) -/
theorem forking_server_worker_exits (W : World) (sfd : Int) :
    ∀ (arrivals : List (Peer × Int)) (before after : List Event),
      (forking_server W sfd arrivals).1 = before ++ Event.fork 0 :: after →
      (∀ e ∈ after, (∀ x, e ≠ Event.accept_request x) ∧ (∀ pid, e ≠ Event.fork pid)) ∧
      ∃ (r : Request) (earlier : List Event),
        before = earlier ++ [Event.accept_request (some r), Event.signal] ∧
        ((∃ ret, handle_request W r = some ret ∧
            after = [Event.close sfd, Event.handle_request r ret,
                     Event.free_request (free_request ret.2), Event.exit EXIT_SUCCESS] ∧
            (forking_server W sfd arrivals).2 = Outcome.exited EXIT_SUCCESS) ∨
         (handle_request W r = none ∧ after = [Event.close sfd] ∧
            (forking_server W sfd arrivals).2 = Outcome.undefined)) := by
  intro arrivals
  induction arrivals with
  | nil =>
    intro before after h
    exact absurd h (not_nil_eq_append_cons _ _ _)
  | cons a rest ih =>
    intro before after h
    obtain ⟨p, pid⟩ := a
    unfold forking_server at h ⊢
    cases hacc : accept_request p with
    | none =>
      simp only [hacc] at h
      exact absurd h (not_nil_eq_append_cons _ _ _)
    | some ro =>
      cases ro with
      | none =>
        simp only [hacc] at h ⊢
        obtain ⟨b1, hb1, h1⟩ := cons_eq_append_of_ne _ _ _ _ _ (by simp) h
        obtain ⟨b2, hb2, h2⟩ := cons_eq_append_of_ne _ _ _ _ _ (by simp) h1
        obtain ⟨hafter, r, earlier, hbefore, hrest⟩ := ih b2 after h2
        refine ⟨hafter, r, Event.accept_request none :: Event.signal :: earlier, ?_, hrest⟩
        rw [hb1, hb2, hbefore]
        rfl
      | some r =>
        simp only [hacc] at h ⊢
        by_cases hneg : pid < 0
        · simp only [hneg, if_true] at h
          have hpid : pid ≠ 0 := by omega
          obtain ⟨b1, _, h1⟩ := cons_eq_append_of_ne _ _ _ _ _ (by simp) h
          obtain ⟨b2, _, h2⟩ := cons_eq_append_of_ne _ _ _ _ _ (by simp) h1
          obtain ⟨b3, _, h3⟩ := cons_eq_append_of_ne _ _ _ _ _ (by simp [hpid]) h2
          obtain ⟨b4, _, h4⟩ := cons_eq_append_of_ne _ _ _ _ _ (by simp) h3
          obtain ⟨b5, _, h5⟩ := cons_eq_append_of_ne _ _ _ _ _ (by simp) h4
          exact absurd h5 (not_nil_eq_append_cons _ _ _)
        · by_cases hzero : pid = 0
          · subst hzero
            simp only [hneg, if_false, if_true] at h ⊢
            cases hh : handle_request W r with
            | none =>
              simp only [hh] at h ⊢
              obtain ⟨b1, hb1, h1⟩ := cons_eq_append_of_ne _ _ _ _ _ (by simp) h
              obtain ⟨b2, hb2, h2⟩ := cons_eq_append_of_ne _ _ _ _ _ (by simp) h1
              cases b2 with
              | nil =>
                simp only [List.nil_append, List.cons.injEq, true_and] at h2
                subst hb2
                subst hb1
                subst h2
                refine ⟨by simp, r, [], rfl, Or.inr ?_⟩
                simp [hh]
              | cons c cs =>
                simp only [List.cons_append, List.cons.injEq] at h2
                obtain ⟨_, h3⟩ := h2
                obtain ⟨b3, _, h4⟩ := cons_eq_append_of_ne _ _ _ _ _ (by simp) h3
                exact absurd h4 (not_nil_eq_append_cons _ _ _)
            | some ret =>
              simp only [hh] at h ⊢
              obtain ⟨b1, hb1, h1⟩ := cons_eq_append_of_ne _ _ _ _ _ (by simp) h
              obtain ⟨b2, hb2, h2⟩ := cons_eq_append_of_ne _ _ _ _ _ (by simp) h1
              cases b2 with
              | nil =>
                simp only [List.nil_append, List.cons.injEq, true_and] at h2
                subst hb2
                subst hb1
                subst h2
                refine ⟨by simp, r, [], rfl, Or.inl ⟨ret, ?_⟩⟩
                simp [hh]
              | cons c cs =>
                simp only [List.cons_append, List.cons.injEq] at h2
                obtain ⟨_, h3⟩ := h2
                obtain ⟨b3, _, h4⟩ := cons_eq_append_of_ne _ _ _ _ _ (by simp) h3
                obtain ⟨b4, _, h5⟩ := cons_eq_append_of_ne _ _ _ _ _ (by simp) h4
                obtain ⟨b5, _, h6⟩ := cons_eq_append_of_ne _ _ _ _ _ (by simp) h5
                obtain ⟨b6, _, h7⟩ := cons_eq_append_of_ne _ _ _ _ _ (by simp) h6
                exact absurd h7 (not_nil_eq_append_cons _ _ _)
          · simp only [hneg, hzero, if_false] at h ⊢
            obtain ⟨b1, hb1, h1⟩ := cons_eq_append_of_ne _ _ _ _ _ (by simp) h
            obtain ⟨b2, hb2, h2⟩ := cons_eq_append_of_ne _ _ _ _ _ (by simp) h1
            obtain ⟨b3, hb3, h3⟩ := cons_eq_append_of_ne _ _ _ _ _ (by simp [hzero]) h2
            obtain ⟨b4, hb4, h4⟩ := cons_eq_append_of_ne _ _ _ _ _ (by simp) h3
            obtain ⟨hafter, r2, earlier, hbefore, hrest⟩ := ih b4 after h4
            refine ⟨hafter, r2,
              Event.accept_request (some r) :: Event.signal :: Event.fork pid ::
                Event.free_request (free_request r) :: earlier, ?_, hrest⟩
            rw [hb1, hb2, hb3, hb4, hbefore]
            rfl

/-- Witness for C12: the process that is the worker of the second of two clients. -/
theorem forking_server_worker_exits_witness :
    (forking_server example_world 3 example_arrivals).1
      = [Event.accept_request (some (example_request "GET /docs HTTP/1.0\nHost: h\n\n")),
         Event.signal, Event.fork 4711,
         Event.free_request (free_request (example_request "GET /docs HTTP/1.0\nHost: h\n\n")),
         Event.accept_request (some (example_request "GET /index.html HTTP/1.0\nHost: h\n\n")),
         Event.signal]
        ++ Event.fork 0 ::
        [Event.close 3,
         Event.handle_request (example_request "GET /index.html HTTP/1.0\nHost: h\n\n")
           (example_handled "GET /index.html HTTP/1.0\nHost: h\n\n"),
         Event.free_request
           (free_request (example_handled "GET /index.html HTTP/1.0\nHost: h\n\n").2),
         Event.exit EXIT_SUCCESS] ∧
    (example_handled "GET /index.html HTTP/1.0\nHost: h\n\n").1
      = some Status.HTTP_STATUS_OK ∧
    (forking_server example_world 3 example_arrivals).2 = Outcome.exited EXIT_SUCCESS := by
  have htrace : (forking_server example_world 3 example_arrivals).1
      = [Event.accept_request (some (example_request "GET /docs HTTP/1.0\nHost: h\n\n")),
         Event.signal, Event.fork 4711,
         Event.free_request (free_request (example_request "GET /docs HTTP/1.0\nHost: h\n\n")),
         Event.accept_request (some (example_request "GET /index.html HTTP/1.0\nHost: h\n\n")),
         Event.signal]
        ++ Event.fork 0 ::
        [Event.close 3,
         Event.handle_request (example_request "GET /index.html HTTP/1.0\nHost: h\n\n")
           (example_handled "GET /index.html HTTP/1.0\nHost: h\n\n"),
         Event.free_request
           (free_request (example_handled "GET /index.html HTTP/1.0\nHost: h\n\n").2),
         Event.exit EXIT_SUCCESS] := by decide
  obtain ⟨_, r, earlier, _, hcase⟩ :=
    forking_server_worker_exits example_world 3 example_arrivals _ _ htrace
  refine ⟨htrace, by decide, ?_⟩
  rcases hcase with ⟨ret, _, _, ho⟩ | ⟨_, ha, _⟩
  · exact ho
  · exact absurd ha (by decide)

end Spidey
